import Mathlib

/-!
Verification development for the WebAnts crawler core.

This file gives a shallow embedding, in Lean 4, of the parts of the WebAnts
source that the specification claims talk about:

* `webants/utils/url.py`   — URL normalization (`normalize_url`), built on the
  semantics of Python's `urllib.parse` (`urlparse`, `parse_qsl`, `urlencode`,
  `urlunparse`) and `str` methods (`removesuffix`, `rsplit`, `split`, `sorted`).
* `webants/libs/request.py` — the `Request` class: construction-time validation,
  URL normalization, and the string fingerprint.
* `webants/scheduler.py`   — the `Scheduler`: duplicate filtering, per-domain
  state, semaphores, counters, and the `asyncio.PriorityQueue` (a binary heap,
  `heapq`) that orders the frontier.
* `webants/downloader.py`  — the `Downloader`: retry policy on status codes,
  exponential backoff, and the statistics counters.
* `webants/spider.py`      — the per-host `CircuitBreaker`.

Modelling conventions:

* Python strings are modelled as `List Char` (`Str`).  Percent-decoding
  (`urllib.parse.unquote`) is modelled at the single-code-point level, which is
  exact for ASCII data; multi-byte UTF-8 percent sequences are decoded
  code-point by code-point instead of through a UTF-8 decoder.
* Wall-clock instants (`time.time()`) are passed as explicit `Rat` parameters;
  `await asyncio.sleep(...)` has no observable state effect and is therefore
  not represented, and the random jitter factor of the scheduler only scales a
  sleep, so it is not represented either.
* Blocking awaits (semaphore acquire on an exhausted semaphore, `put` on a full
  queue, `get` on an empty queue) are modelled as an explicit `blocked`/`none`
  result carrying the state mutations performed before the suspension point.
* Python `int` is `Int` (or `Nat` where the source keeps the value
  non-negative), `float` is `Rat`.
-/

set_option maxRecDepth 4000

/-- Python `str`, modelled as its list of code points. -/
abbrev Str := List Char

/-- Code points of a Lean string literal, used to write concrete examples. -/
def strL (s : String) : Str := s.data

/-! ## Python `urllib.parse`: `urlsplit` / `urlparse` -/

/-- `scheme_chars` of `urllib.parse`: letters, digits and `+-.`. -/
def isSchemeChar (c : Char) : Bool :=
  c.isAlpha || c.isDigit || c == '+' || c == '-' || c == '.'

/-- ASCII lowercasing, the effect of `str.lower()` on the ASCII data that a
URL scheme is checked to consist of. -/
def pyLower (s : Str) : Str := s.map Char.toLower

/-- ASCII uppercasing (`str.upper()` restricted to ASCII, which is all the
claims exercise). -/
def pyUpper (s : Str) : Str := s.map Char.toUpper

/-- Split at the first occurrence of `sep` (Python `s.split(sep, 1)` when it
finds a separator). -/
def splitFirst (sep : Char) : Str → Option (Str × Str)
  | [] => none
  | c :: cs =>
    if c = sep then some ([], cs)
    else
      match splitFirst sep cs with
      | none => none
      | some (a, b) => some (c :: a, b)

/-- Result of `urllib.parse.urlsplit`. -/
structure SplitResult where
  scheme : Str
  netloc : Str
  path : Str
  query : Str
  fragment : Str
deriving DecidableEq

/-- The scheme stage of `urlsplit`: `(scheme, rest)` — the text before the
first `:` when it is a well-formed scheme, lowercased. -/
def usplitScheme (url2 : Str) : Str × Str :=
  match splitFirst ':' url2 with
  | some (before, after) =>
    if 0 < before.length ∧ (url2.headD ' ').isAlpha ∧ before.all isSchemeChar
    then (pyLower before, after)
    else ([], url2)
  | none => ([], url2)

/-- The netloc stage of `urlsplit`: `(netloc, rest2)` — after a leading `//`,
up to the first of `/`, `?`, `#`. -/
def usplitNetloc (rest : Str) : Str × Str :=
  match rest with
  | '/' :: '/' :: tail =>
    (tail.takeWhile (fun c => !(c == '/' || c == '?' || c == '#')),
     tail.dropWhile (fun c => !(c == '/' || c == '?' || c == '#')))
  | _ => ([], rest)

/-- The fragment stage of `urlsplit`: `(rest3, fragment)` — split at the
first `#`. -/
def usplitFragment (rest2 : Str) : Str × Str :=
  match splitFirst '#' rest2 with
  | some (a, b) => (a, b)
  | none => (rest2, [])

/-- The query stage of `urlsplit`: `(path, query)` — split at the first `?`. -/
def usplitQuery (rest3 : Str) : Str × Str :=
  match splitFirst '?' rest3 with
  | some (a, b) => (a, b)
  | none => (rest3, [])

/-- `urllib.parse.urlsplit` (the `ValueError` branches for malformed IPv6
brackets and `_checknetloc`, which no claim exercises, are not modelled). -/
def pyUrlsplit (url0 : Str) : SplitResult :=
  -- url.lstrip(_WHATWG_C0_CONTROL_OR_SPACE): strip leading code points ≤ 0x20
  let url1 := url0.dropWhile (fun c => c.toNat ≤ 32)
  -- remove _UNSAFE_URL_BYTES_TO_REMOVE = tab, carriage return, newline
  let url2 := url1.filter (fun c => !(c == '\t' || c == '\r' || c == '\n'))
  let sr := usplitScheme url2
  let nr := usplitNetloc sr.2
  let fr := usplitFragment nr.2
  let pq := usplitQuery fr.1
  ⟨sr.1, nr.1, pq.1, pq.2, fr.2⟩

/-- `urllib.parse.uses_params`. -/
def uses_params : List Str :=
  [strL (""), strL ("ftp"), strL ("hdl"), strL ("prospero"), strL ("http"),
   strL ("imap"), strL ("https"), strL ("shttp"), strL ("rtsp"), strL ("rtsps"),
   strL ("rtspu"), strL ("sip"), strL ("sips"), strL ("mms"), strL ("sftp"),
   strL ("tel")]

/-- `urllib.parse.uses_netloc`. -/
def uses_netloc : List Str :=
  [strL (""), strL ("ftp"), strL ("http"), strL ("gopher"), strL ("nntp"),
   strL ("telnet"), strL ("imap"), strL ("wais"), strL ("file"), strL ("mms"),
   strL ("https"), strL ("shttp"), strL ("snews"), strL ("prospero"),
   strL ("rtsp"), strL ("rtsps"), strL ("rtspu"), strL ("rsync"), strL ("svn"),
   strL ("svn+ssh"), strL ("sftp"), strL ("nfs"), strL ("git"),
   strL ("git+ssh"), strL ("ws"), strL ("wss")]

/-- Index of the last occurrence of `c` (Python `s.rfind(c)` when found). -/
def rfindIdx (c : Char) (l : Str) : Option Nat :=
  match splitFirst c l.reverse with
  | none => none
  | some (before, _) => some (l.length - 1 - before.length)

/-- `urllib.parse._splitparams`. -/
def splitparams (p : Str) : Str × Str :=
  if ('/' : Char) ∈ p then
    let k := (rfindIdx '/' p).getD 0
    match splitFirst ';' (p.drop k) with
    | none => (p, [])
    | some (a, b) => (p.take (k + a.length), b)
  else
    match splitFirst ';' p with
    | none => (p, [])
    | some (a, b) => (a, b)

/-- Result of `urllib.parse.urlparse` (6 components). -/
structure ParseResult where
  scheme : Str
  netloc : Str
  path : Str
  params : Str
  query : Str
  fragment : Str
deriving DecidableEq

/-- `urllib.parse.urlparse`. -/
def pyUrlparse (url : Str) : ParseResult :=
  let s := pyUrlsplit url
  if s.scheme ∈ uses_params ∧ (';' : Char) ∈ s.path then
    let pp := splitparams s.path
    ⟨s.scheme, s.netloc, pp.1, pp.2, s.query, s.fragment⟩
  else ⟨s.scheme, s.netloc, s.path, [], s.query, s.fragment⟩

/-! ## Python `urllib.parse`: `parse_qsl`, `quote_plus`, `urlencode` -/

/-- Value of an ASCII hex digit. -/
def hexVal (c : Char) : Option Nat :=
  if '0' ≤ c ∧ c ≤ '9' then some (c.toNat - 48)
  else if 'a' ≤ c ∧ c ≤ 'f' then some (c.toNat - 87)
  else if 'A' ≤ c ∧ c ≤ 'F' then some (c.toNat - 55)
  else none

/-- `urllib.parse.unquote`, at the code-point level (exact for ASCII; a
multi-byte UTF-8 escape sequence decodes to one code point per byte here). -/
def pyUnquoteFuel : Nat → Str → Str
  | 0, l => l
  | _, [] => []
  | fuel + 1, c :: rest =>
    if c = '%' then
      match rest with
      | a :: b :: rest2 =>
        match hexVal a, hexVal b with
        | some ha, some hb => Char.ofNat (16 * ha + hb) :: pyUnquoteFuel fuel rest2
        | _, _ => '%' :: pyUnquoteFuel fuel rest
      | _ => '%' :: pyUnquoteFuel fuel rest
    else c :: pyUnquoteFuel fuel rest

/-- `urllib.parse.unquote` (each step consumes at least one character, so a
fuel of `l.length` always suffices; the fuel only serves structural
termination). -/
def pyUnquote (l : Str) : Str := pyUnquoteFuel l.length l

/-- `str.replace('+', ' ')`, used by `parse_qsl`. -/
def plusToSpace (l : Str) : Str := l.map (fun c => if c = '+' then ' ' else c)

/-- Python `s.split(sep)` for a single-character separator. -/
def splitOnChar (sep : Char) : Str → List Str
  | [] => [[]]
  | c :: cs =>
    if c = sep then [] :: splitOnChar sep cs
    else
      match splitOnChar sep cs with
      | [] => [[c]]
      | h :: t => (c :: h) :: t

/-- One `name_value` item of `parse_qsl`'s loop. -/
def qslItem (keep_blank_values : Bool) (name_value : Str) : Option (Str × Str) :=
  if name_value = [] then none
  else
    match splitFirst '=' name_value with
    | some (n, v) =>
      if v.length ≠ 0 ∨ keep_blank_values = true then
        some (pyUnquote (plusToSpace n), pyUnquote (plusToSpace v))
      else none
    | none =>
      if keep_blank_values then some (pyUnquote (plusToSpace name_value), [])
      else none

/-- `urllib.parse.parse_qsl` with the default `&` separator. -/
def parse_qsl (qs : Str) (keep_blank_values : Bool) : List (Str × Str) :=
  (if qs = [] then [] else splitOnChar '&' qs).filterMap (qslItem keep_blank_values)

/-- `urllib.parse`'s `_ALWAYS_SAFE`: letters, digits, `_.-~`. -/
def alwaysSafeChar (c : Char) : Bool :=
  c.isAlpha || c.isDigit || c == '_' || c == '.' || c == '-' || c == '~'

/-- Uppercase hex digit. -/
def hexDigitUpper (n : Nat) : Char :=
  if n < 10 then Char.ofNat (48 + n) else Char.ofNat (55 + n)

/-- UTF-8 encoding of one code point. -/
def utf8Bytes (c : Char) : List Nat :=
  let n := c.toNat
  if n < 128 then [n]
  else if n < 2048 then [192 + n / 64, 128 + n % 64]
  else if n < 65536 then [224 + n / 4096, 128 + (n / 64) % 64, 128 + n % 64]
  else [240 + n / 262144, 128 + (n / 4096) % 64, 128 + (n / 64) % 64, 128 + n % 64]

/-- `%XX` escape of one byte. -/
def percentByte (b : Nat) : Str := ['%', hexDigitUpper (b / 16), hexDigitUpper (b % 16)]

/-- `urllib.parse.quote` with a `safe` set (in addition to `_ALWAYS_SAFE`). -/
def pyQuote (s : Str) (safe : Str) : Str :=
  s.foldr
    (fun c acc =>
      (if alwaysSafeChar c || c ∈ safe then [c]
       else (utf8Bytes c).foldr (fun b a2 => percentByte b ++ a2) []) ++ acc)
    []

/-- `urllib.parse.quote_plus`. -/
def pyQuotePlus (s : Str) : Str :=
  if (' ' : Char) ∈ s then
    (pyQuote s [' ']).map (fun c => if c = ' ' then '+' else c)
  else pyQuote s []

/-- `'&'.join`. -/
def joinAmp : List Str → Str
  | [] => []
  | [x] => x
  | x :: xs => x ++ '&' :: joinAmp xs

/-- `urllib.parse.urlencode` on a list of pairs (with the default
`quote_via=quote_plus`). -/
def urlencode (pairs : List (Str × Str)) : Str :=
  joinAmp (pairs.map (fun p => pyQuotePlus p.1 ++ '=' :: pyQuotePlus p.2))

/-! ## Python `sorted` on `(str, str)` tuples -/

/-- Python `<` on strings: lexicographic by code point. -/
def strLtB : Str → Str → Bool
  | _, [] => false
  | [], _ :: _ => true
  | a :: as, b :: bs => if a = b then strLtB as bs else decide (a < b)

/-- Python `<` on `(str, str)` tuples: compare first components, then second. -/
def pairLtB (a b : Str × Str) : Bool :=
  if a.1 = b.1 then strLtB a.2 b.2 else strLtB a.1 b.1

/-- Stable insertion of `x` before the first element not `<` it (the sorted
insert underlying Python's stable ascending `sorted`). -/
def pyInsert (x : Str × Str) : List (Str × Str) → List (Str × Str)
  | [] => [x]
  | y :: ys => if pairLtB y x then y :: pyInsert x ys else x :: y :: ys

/-- Python `sorted` on a list of `(str, str)` pairs. -/
def pySorted : List (Str × Str) → List (Str × Str)
  | [] => []
  | x :: xs => pyInsert x (pySorted xs)

/-! ## Python `urllib.parse`: `urlunsplit` / `urlunparse` -/

/-- `urllib.parse.urlunsplit`. -/
def pyUrlunsplit (scheme netloc path query fragment : Str) : Str :=
  let url1 :=
    if netloc ≠ [] ∨ (scheme ≠ [] ∧ scheme ∈ uses_netloc ∧ path.take 2 ≠ ['/', '/']) then
      let p2 := if path ≠ [] ∧ path.take 1 ≠ ['/'] then '/' :: path else path
      '/' :: '/' :: (netloc ++ p2)
    else path
  let url2 := if scheme ≠ [] then scheme ++ ':' :: url1 else url1
  let url3 := if query ≠ [] then url2 ++ '?' :: query else url2
  if fragment ≠ [] then url3 ++ '#' :: fragment else url3

/-- `urllib.parse.urlunparse`. -/
def pyUrlunparse (scheme netloc path params query fragment : Str) : Str :=
  let p := if params ≠ [] then path ++ ';' :: params else path
  pyUrlunsplit scheme netloc p query fragment

/-! ## `webants/utils/url.py` -/

/-- `str.endswith`. -/
def pyEndswith (l sfx : Str) : Bool :=
  decide (sfx.length ≤ l.length) && decide (l.drop (l.length - sfx.length) = sfx)

/-- `str.removesuffix`. -/
def removesuffix (l sfx : Str) : Str :=
  if pyEndswith l sfx then l.take (l.length - sfx.length) else l

/-- `s.rsplit(sep, 1)[-1]`: the part after the last `sep` (all of `s` if there
is none). -/
def rsplitLast (sep : Char) : Str → Str
  | [] => []
  | c :: cs =>
    if sep ∈ cs then rsplitLast sep cs
    else if c = sep then cs
    else c :: cs

/-- `webants.utils.url.normalize_url` (parameters in source order; the source's
defaults are `keep_auth=False, keep_fragments=False, keep_blank_values=True,
keep_default_port=False, sort_query=True`). -/
def normalize_url (url : Str) (keep_auth keep_fragments keep_blank_values
    keep_default_port sort_query : Bool) : Str :=
  let p := pyUrlparse url
  let qsl := parse_qsl p.query keep_blank_values
  let query := if sort_query then urlencode (pySorted qsl) else p.query
  let fragment := if keep_fragments then p.fragment else []
  let netloc :=
    if keep_default_port then p.netloc
    else if p.scheme = strL ("http") then removesuffix p.netloc (strL (":80"))
    else if p.scheme = strL ("https") then removesuffix p.netloc (strL (":443"))
    else p.netloc
  let netloc2 := if keep_auth then netloc else rsplitLast '@' netloc
  pyUrlunparse p.scheme netloc2 p.path p.params query fragment

/-- `normalize_url` with all its default arguments. -/
def normalizeUrlD (url : Str) : Str := normalize_url url false false true false true

example : normalizeUrlD (strL ("http://example.com/a?b=1&a=2"))
    = strL ("http://example.com/a?a=2&b=1") := by decide
example : normalizeUrlD (strL ("http://example.com:80/a?a=2&b=1"))
    = strL ("http://example.com/a?a=2&b=1") := by decide
example : normalizeUrlD (strL ("HTTP://User:pw@Example.com:80/p?x=&y=1#frag"))
    = strL ("http://Example.com/p?x=&y=1") := by decide
example : normalizeUrlD (strL ("http://example.com/a;par?b=1&a="))
    = strL ("http://example.com/a;par?a=&b=1") := by decide

/-! ## `webants/libs/request.py` -/

/-- `Request.METHODS`. -/
def METHODS : List Str :=
  [strL ("GET"), strL ("HEAD"), strL ("POST"), strL ("PUT"), strL ("DELETE"),
   strL ("OPTIONS"), strL ("PATCH")]

/-- The `Request` value, restricted to the fields the verified claims observe.
`headers`, `cookies`, `encoding`, `cb_kwargs`, `meta`, `referer` and the
middleware list carry no behaviour in the claims and are omitted; `callback`
is abstracted to a presence flag; `body` is modelled as an optional string
(`str` bodies; `bytes`/`dict` bodies are not exercised by the claims). -/
structure Req where
  url : Str
  method : Str
  body : Option Str
  dont_filter : Bool
  priority : Int
  retries : Int
  delay : Rat
  timeout : Option Rat
  hasCallback : Bool
deriving DecidableEq

/-- The exceptions `Request.__init__` raises while validating. -/
inductive InitError where
  | invalidRequestMethod
  | typeError
  | valueError
deriving DecidableEq

/-- A Python argument that may or may not be a `str` (for the `isinstance`
check of `_validate_url`). -/
inductive UrlArg where
  | pystr (s : Str)
  | nonstr
deriving DecidableEq

/-- `Request._validate_method`. -/
def validateMethod (method : Str) : Except InitError Unit :=
  if pyUpper method ∈ METHODS then .ok () else .error .invalidRequestMethod

/-- `Request._validate_url`. -/
def validateUrl (url : UrlArg) : Except InitError Unit :=
  match url with
  | .nonstr => .error .typeError
  | .pystr s =>
    let parsed := pyUrlparse s
    if parsed.scheme ≠ [] ∧ parsed.netloc ≠ [] then .ok () else .error .valueError

/-- The validation prelude of `Request.__init__` (method first, then URL;
nothing is checked when `validate` is false). -/
def requestInit (url : UrlArg) (method : Str) (validate : Bool) : Except InitError Unit :=
  if validate then
    match validateMethod method with
    | .error e => .error e
    | .ok _ => validateUrl url
  else .ok ()

/-- `Request.__init__` for a `str` URL: run validation, then build the object
(`self.url = normalize_url(url) if normalize else url`,
`self.method = method.upper()`). -/
def mkRequest (url : Str) (method : Str) (body : Option Str) (dont_filter : Bool)
    (priority retries : Int) (delay : Rat) (timeout : Option Rat)
    (hasCallback validate normalize : Bool) : Except InitError Req :=
  match requestInit (.pystr url) method validate with
  | .error e => .error e
  | .ok _ =>
    .ok { url := if normalize then normalizeUrlD url else url
          method := pyUpper method
          body := body
          dont_filter := dont_filter
          priority := priority
          retries := retries
          delay := delay
          timeout := timeout
          hasCallback := hasCallback }

/-- `mkRequest` with the defaults of `Request.__init__` other than the URL
(GET, no body, `dont_filter=False`, `priority=0`, `retries=3`, `delay=0.0`,
no timeout, no callback, `validate=True`, `normalize=True`). -/
def mkRequestD (url : Str) : Except InitError Req :=
  mkRequest url (strL ("GET")) none false 0 3 0 none false true true

/-- `':'.join`. -/
def joinColon : List Str → Str
  | [] => []
  | [x] => x
  | x :: xs => x ++ ':' :: joinColon xs

/-- `Request.fingerprint` (the source accepts a `normalize` keyword but never
reads it; a `str` body contributes `str(self.body)`, i.e. itself, and an
empty or absent body is falsy and contributes nothing). -/
def fingerprint (r : Req) (keep_fragments keep_auth : Bool) : Str :=
  let parts := [r.method, normalize_url r.url keep_auth keep_fragments true false true]
  let parts :=
    match r.body with
    | some b => if b ≠ [] then parts ++ [b] else parts
    | none => parts
  joinColon parts

/-- `Request.fingerprint` with default arguments. -/
def fingerprintD (r : Req) : Str := fingerprint r false false

/-- `Request.__eq__`: fingerprints compare equal. -/
def reqEqB (r1 r2 : Req) : Bool := fingerprintD r1 == fingerprintD r2

/-! ### Order facts about Python comparison of `(str, str)` tuples -/

theorem strLtB_irrefl (a : Str) : strLtB a a = false := by
  induction a with
  | nil => rfl
  | cons c cs ih => simp [strLtB, ih]

theorem strLtB_asymm : ∀ (a b : Str), strLtB a b = true → strLtB b a = false
  | _, [], h => by simp [strLtB] at h
  | [], _ :: _, _ => by simp [strLtB]
  | a :: as, b :: bs, h => by
    simp only [strLtB] at h ⊢
    by_cases hab : a = b
    · subst hab
      simp only [if_pos rfl] at h ⊢
      exact strLtB_asymm as bs h
    · have hba : ¬b = a := fun e => hab e.symm
      simp only [if_neg hab, decide_eq_true_eq] at h
      simp only [if_neg hba, decide_eq_false_iff_not]
      exact lt_asymm h

theorem strLtB_trans : ∀ (a b c : Str),
    strLtB a b = true → strLtB b c = true → strLtB a c = true
  | _, _, [], _, h2 => by simp [strLtB] at h2
  | _, [], _ :: _, h1, _ => by simp [strLtB] at h1
  | [], _ :: _, _ :: _, _, _ => by simp [strLtB]
  | a :: as, b :: bs, c :: cs, h1, h2 => by
    simp only [strLtB] at h1 h2 ⊢
    by_cases hab : a = b <;> by_cases hbc : b = c
    · subst hab; subst hbc
      simp only [if_pos rfl] at h1 h2 ⊢
      exact strLtB_trans as bs cs h1 h2
    · subst hab
      simp only [if_neg hbc] at h2 ⊢
      exact h2
    · subst hbc
      simp only [if_neg hab] at h1 ⊢
      exact h1
    · simp only [if_neg hab, decide_eq_true_eq] at h1
      simp only [if_neg hbc, decide_eq_true_eq] at h2
      have hac : a < c := lt_trans h1 h2
      simp only [if_neg (ne_of_lt hac), decide_eq_true_eq]
      exact hac

theorem strLtB_conn : ∀ (a b : Str), strLtB a b = false → strLtB b a = false → a = b
  | [], [], _, _ => rfl
  | _ :: _, [], _, h2 => by simp [strLtB] at h2
  | [], _ :: _, h1, _ => by simp [strLtB] at h1
  | a :: as, b :: bs, h1, h2 => by
    by_cases hab : a = b
    · subst hab
      simp only [strLtB, if_pos rfl] at h1 h2
      rw [strLtB_conn as bs h1 h2]
    · have hba : ¬b = a := fun e => hab e.symm
      simp only [strLtB, if_neg hab, decide_eq_false_iff_not, not_lt] at h1
      simp only [strLtB, if_neg hba, decide_eq_false_iff_not, not_lt] at h2
      exact absurd (le_antisymm h2 h1) hab

theorem pairLtB_irrefl (a : Str × Str) : pairLtB a a = false := by
  simp [pairLtB, strLtB_irrefl]

theorem pairLtB_asymm (a b : Str × Str) (h : pairLtB a b = true) :
    pairLtB b a = false := by
  unfold pairLtB at h ⊢
  by_cases h1 : a.1 = b.1
  · rw [if_pos h1] at h
    rw [if_pos h1.symm]
    exact strLtB_asymm _ _ h
  · have h1' : ¬b.1 = a.1 := fun e => h1 e.symm
    rw [if_neg h1] at h
    rw [if_neg h1']
    exact strLtB_asymm _ _ h

theorem pairLtB_trans (a b c : Str × Str) (h1 : pairLtB a b = true)
    (h2 : pairLtB b c = true) : pairLtB a c = true := by
  unfold pairLtB at h1 h2 ⊢
  by_cases hab : a.1 = b.1 <;> by_cases hbc : b.1 = c.1
  · rw [if_pos hab] at h1
    rw [if_pos hbc] at h2
    rw [if_pos (hab.trans hbc)]
    exact strLtB_trans _ _ _ h1 h2
  · rw [if_neg hbc] at h2
    rw [if_neg (fun e => hbc (hab.symm.trans e)), hab]
    exact h2
  · rw [if_neg hab] at h1
    rw [if_neg (fun e => hab (e.trans hbc.symm)), ← hbc]
    exact h1
  · rw [if_neg hab] at h1
    rw [if_neg hbc] at h2
    have hac : strLtB a.1 c.1 = true := strLtB_trans _ _ _ h1 h2
    have hne : ¬a.1 = c.1 := by
      intro e
      rw [e] at h1
      have := strLtB_asymm _ _ h2
      rw [this] at h1
      exact Bool.false_ne_true h1
    rw [if_neg hne]
    exact hac

theorem pairLtB_conn (a b : Str × Str) (h1 : pairLtB a b = false)
    (h2 : pairLtB b a = false) : a = b := by
  obtain ⟨a1, a2⟩ := a
  obtain ⟨b1, b2⟩ := b
  unfold pairLtB at h1 h2
  by_cases hab : a1 = b1
  · subst hab
    simp only [if_pos rfl] at h1 h2
    rw [strLtB_conn a2 b2 h1 h2]
  · have hba : ¬b1 = a1 := fun e => hab e.symm
    simp only at h1 h2
    rw [if_neg hab] at h1
    rw [if_neg hba] at h2
    exact absurd (strLtB_conn a1 b1 h1 h2) hab

/-- The `≤` relation under which Python's `sorted` orders `(str, str)`
tuples. -/
def qpLe (a b : Str × Str) : Prop := pairLtB b a = false

instance : DecidableRel qpLe := fun a b => by unfold qpLe; infer_instance

instance : IsTotal (Str × Str) qpLe :=
  ⟨fun a b => by
    unfold qpLe
    cases h : pairLtB b a
    · exact .inl rfl
    · exact .inr (pairLtB_asymm b a h)⟩

theorem pairLtB_false_elim (a b : Str × Str) (h : pairLtB a b = false) :
    pairLtB b a = true ∨ a = b := by
  cases h2 : pairLtB b a
  · exact .inr (pairLtB_conn a b h h2)
  · exact .inl rfl

instance : IsTrans (Str × Str) qpLe :=
  ⟨fun a b c h1 h2 => by
    unfold qpLe at h1 h2 ⊢
    rcases pairLtB_false_elim b a h1 with h3 | h3 <;>
      rcases pairLtB_false_elim c b h2 with h4 | h4
    · exact pairLtB_asymm _ _ (pairLtB_trans a b c h3 h4)
    · rw [h4]
      exact pairLtB_asymm _ _ h3
    · rw [← h3]
      exact pairLtB_asymm _ _ h4
    · rw [h4, h3]
      exact pairLtB_irrefl a⟩

instance : IsAntisymm (Str × Str) qpLe :=
  ⟨fun a b h1 h2 => pairLtB_conn a b h2 h1⟩

theorem pyInsert_perm (x : Str × Str) (l : List (Str × Str)) :
    (pyInsert x l).Perm (x :: l) := by
  induction l with
  | nil => exact .refl _
  | cons y ys ih =>
    simp only [pyInsert]
    by_cases h : pairLtB y x = true
    · rw [if_pos h]
      exact (ih.cons y).trans (List.Perm.swap x y ys)
    · rw [if_neg h]

theorem pySorted_perm (l : List (Str × Str)) : (pySorted l).Perm l := by
  induction l with
  | nil => exact .refl _
  | cons x xs ih =>
    exact (pyInsert_perm x (pySorted xs)).trans (ih.cons x)

theorem pyInsert_pairwise (x : Str × Str) (l : List (Str × Str))
    (hl : l.Pairwise qpLe) : (pyInsert x l).Pairwise qpLe := by
  induction l with
  | nil => simp [pyInsert]
  | cons y ys ih =>
    simp only [pyInsert]
    rcases List.pairwise_cons.mp hl with ⟨hy, hys⟩
    by_cases h : pairLtB y x = true
    · rw [if_pos h]
      refine List.pairwise_cons.mpr ⟨?_, ih hys⟩
      intro z hz
      have hz' := (pyInsert_perm x ys).mem_iff.mp hz
      rcases List.mem_cons.mp hz' with rfl | hz2
      · exact pairLtB_asymm y z h
      · exact hy z hz2
    · rw [if_neg h]
      refine List.pairwise_cons.mpr ⟨?_, hl⟩
      intro z hz
      have hxy : qpLe x y := by
        unfold qpLe
        cases hyx : pairLtB y x
        · rfl
        · exact absurd hyx h
      rcases List.mem_cons.mp hz with rfl | hz2
      · exact hxy
      · exact IsTrans.trans x y z hxy (hy z hz2)

theorem pySorted_pairwise (l : List (Str × Str)) : (pySorted l).Pairwise qpLe := by
  induction l with
  | nil => simp [pySorted]
  | cons x xs ih => exact pyInsert_pairwise x (pySorted xs) ih

/-- Python's `sorted` returns the same list on any two permutations of the
same input (the tuple order is antisymmetric, so the sorted form is unique). -/
theorem pySorted_eq_of_perm (l1 l2 : List (Str × Str)) (h : l1.Perm l2) :
    pySorted l1 = pySorted l2 :=
  List.eq_of_perm_of_sorted
    ((pySorted_perm l1).trans (h.trans (pySorted_perm l2).symm))
    (pySorted_pairwise l1) (pySorted_pairwise l2)


/-! ## Python `heapq`, the engine of `asyncio.PriorityQueue`

`asyncio.PriorityQueue._put` is `heapq.heappush` and `._get` is
`heapq.heappop`.  The comparator `lt` stands for Python's `<` on the queued
items.  `heapq._siftdown`/`_siftup` save `newitem = heap[pos]` on entry and
treat position `pos` as a hole until the final write, so the pending item is
carried as an explicit argument here.  Each loop is written with a structural
fuel argument equal to its loop measure (`_siftdown` moves the hole to the
parent `(pos-1)//2 < pos`, so `pos` steps suffice; `_siftup` moves it to a
child `> pos`, so `len(heap) - pos ≤ len(heap)` steps suffice); with enough
fuel the fuel case is never reached, and the wrappers below always supply
enough. -/

section Heapq

variable {α : Type} (lt : α → α → Bool) (d : α)

/-- `heapq._siftdown(heap, startpos, pos)` (bubble the pending `newitem` up
while it is `<` its parent, whose index is `(pos - 1) / 2`).  When the fuel
bound `pos ≤ fuel` holds, fuel 0 forces `pos = 0`, where the loop writes the
pending item, as the fuel-0 case does. -/
def siftdownFuel (fuel : Nat) (heap : List α) (startpos pos : Nat) (newitem : α) :
    List α :=
  match fuel with
  | 0 => heap.set pos newitem
  | f + 1 =>
    if startpos < pos then
      if lt newitem (heap.getD ((pos - 1) / 2) d) then
        siftdownFuel f (heap.set pos (heap.getD ((pos - 1) / 2) d)) startpos
          ((pos - 1) / 2) newitem
      else heap.set pos newitem
    else heap.set pos newitem

/-- `heapq._siftdown(heap, startpos, pos)`. -/
def siftdownLoop (heap : List α) (startpos pos : Nat) (newitem : α) : List α :=
  siftdownFuel lt d pos heap startpos pos newitem

/-- `heapq.heappush`: append, then sift the new last position up. -/
def heappush (heap : List α) (item : α) : List α :=
  siftdownLoop lt d (heap ++ [item]) 0 heap.length item

/-- The child `heapq._siftup` moves into the hole at `pos`: the right child
`2*pos + 2` when it exists and the left child is not `<` it, else the left
child `2*pos + 1`. -/
def pickChild (heap : List α) (pos : Nat) : Nat :=
  if 2 * pos + 2 < heap.length ∧
      lt (heap.getD (2 * pos + 1) d) (heap.getD (2 * pos + 2) d) = false
  then 2 * pos + 2 else 2 * pos + 1

/-- `heapq._siftup(heap, 0)` as `heappop` invokes it: move the hole down to a
leaf along smaller children, then write the pending item and sift it up
towards the entry position 0.  When `heap.length ≤ pos + fuel`, fuel 0 forces
the hole to be a leaf, where the loop stops, as the fuel-0 case does. -/
def siftupFuel (fuel : Nat) (heap : List α) (pos : Nat) (newitem : α) : List α :=
  match fuel with
  | 0 => siftdownLoop lt d (heap.set pos newitem) 0 pos newitem
  | f + 1 =>
    if 2 * pos + 1 < heap.length then
      siftupFuel f (heap.set pos (heap.getD (pickChild lt d heap pos) d))
        (pickChild lt d heap pos) newitem
    else siftdownLoop lt d (heap.set pos newitem) 0 pos newitem

/-- `heapq._siftup(heap, 0)` as `heappop` invokes it. -/
def siftupLoop (heap : List α) (pos : Nat) (newitem : α) : List α :=
  siftupFuel lt d heap.length heap pos newitem

theorem siftdownFuel_length (fuel : Nat) :
    ∀ (heap : List α) (startpos pos : Nat) (newitem : α),
      (siftdownFuel lt d fuel heap startpos pos newitem).length = heap.length := by
  induction fuel with
  | zero =>
    intro heap startpos pos newitem
    exact List.length_set heap pos newitem
  | succ f ih =>
    intro heap startpos pos newitem
    simp only [siftdownFuel]
    split
    · split
      · rw [ih, List.length_set]
      · exact List.length_set heap pos newitem
    · exact List.length_set heap pos newitem

theorem siftdownLoop_length (heap : List α) (startpos pos : Nat) (newitem : α) :
    (siftdownLoop lt d heap startpos pos newitem).length = heap.length :=
  siftdownFuel_length lt d pos heap startpos pos newitem

theorem pickChild_lb (heap : List α) (pos : Nat) : pos < pickChild lt d heap pos := by
  unfold pickChild
  split <;> omega

theorem pickChild_ub (heap : List α) (pos : Nat) (h : 2 * pos + 1 < heap.length) :
    pickChild lt d heap pos < heap.length := by
  unfold pickChild
  split <;> omega

theorem siftupFuel_length (fuel : Nat) :
    ∀ (heap : List α) (pos : Nat) (newitem : α),
      (siftupFuel lt d fuel heap pos newitem).length = heap.length := by
  induction fuel with
  | zero =>
    intro heap pos newitem
    rw [siftupFuel, siftdownLoop_length, List.length_set]
  | succ f ih =>
    intro heap pos newitem
    simp only [siftupFuel]
    split
    · rw [ih, List.length_set]
    · rw [siftdownLoop_length, List.length_set]

theorem siftupLoop_length (heap : List α) (pos : Nat) (newitem : α) :
    (siftupLoop lt d heap pos newitem).length = heap.length :=
  siftupFuel_length lt d heap.length heap pos newitem

/-- `heapq.heappop`: pop the last element; if the heap is still nonempty, the
root is the result, the popped last element goes to the root and is sifted
down. -/
def heappop (heap : List α) : Option (α × List α) :=
  match heap with
  | [] => none
  | _ :: _ =>
    if heap.length = 1 then some (heap.getD 0 d, [])
    else
      some ((heap.take (heap.length - 1)).getD 0 d,
        siftupLoop lt d
          ((heap.take (heap.length - 1)).set 0 (heap.getD (heap.length - 1) d)) 0
          (heap.getD (heap.length - 1) d))

theorem heappop_length (heap : List α) (x : α) (h2 : List α)
    (h : heappop lt d heap = some (x, h2)) : h2.length = heap.length - 1 := by
  match heap with
  | [] => simp [heappop] at h
  | a :: rest =>
    unfold heappop at h
    split at h
    · exact absurd h (by simp)
    · split at h
      · cases h
        simp_all
      · cases h
        rw [siftupLoop_length, List.length_set, List.length_take]
        simp

/-- Popping every element off a heap, in pop order (each pop shortens the
heap by one, so a fuel of `heap.length` always suffices). -/
def popAllFuel (fuel : Nat) (heap : List α) : List α :=
  match fuel with
  | 0 => []
  | f + 1 =>
    match heappop lt d heap with
    | none => []
    | some (x, h2) => x :: popAllFuel f h2

/-- Popping every element off a heap, in pop order. -/
def popAll (heap : List α) : List α := popAllFuel lt d heap.length heap

theorem popAllFuel_congr (f1 : Nat) :
    ∀ (f2 : Nat) (heap : List α), heap.length ≤ f1 → heap.length ≤ f2 →
      popAllFuel lt d f1 heap = popAllFuel lt d f2 heap := by
  induction f1 with
  | zero =>
    intro f2 heap h1 h2
    have he : heap = [] := List.eq_nil_of_length_eq_zero (by omega)
    subst he
    cases f2 with
    | zero => rfl
    | succ f2 => simp [popAllFuel, heappop]
  | succ f ih =>
    intro f2 heap h1 h2
    cases f2 with
    | zero =>
      have he : heap = [] := List.eq_nil_of_length_eq_zero (by omega)
      subst he
      simp [popAllFuel, heappop]
    | succ f2 =>
      simp only [popAllFuel]
      cases hpop : heappop lt d heap with
      | none => rfl
      | some p =>
        obtain ⟨x, hp2⟩ := p
        have hlp := heappop_length lt d heap x hp2 hpop
        have hne : heap ≠ [] := by
          intro e
          rw [e] at hpop
          cases hpop
        have hpos : 0 < heap.length := List.length_pos.mpr hne
        show x :: popAllFuel lt d f hp2 = x :: popAllFuel lt d f2 hp2
        rw [ih f2 hp2 (by omega) (by omega)]

theorem popAll_eq_nil (heap : List α) (h : heappop lt d heap = none) :
    popAll lt d heap = [] := by
  unfold popAll
  cases hl : heap.length with
  | zero => rfl
  | succ n => simp [popAllFuel, h]

theorem popAll_eq_cons (heap : List α) (x : α) (h2 : List α)
    (h : heappop lt d heap = some (x, h2)) :
    popAll lt d heap = x :: popAll lt d h2 := by
  have hne : heap ≠ [] := by
    intro e
    rw [e] at h
    cases h
  have hpos : 0 < heap.length := List.length_pos.mpr hne
  have hlp := heappop_length lt d heap x h2 h
  unfold popAll
  obtain ⟨n, hn⟩ : ∃ n, heap.length = n + 1 := ⟨heap.length - 1, by omega⟩
  rw [hn]
  simp only [popAllFuel, h]
  rw [popAllFuel_congr lt d n h2.length h2 (by omega) (by omega)]

end Heapq

/-! ### Supporting list lemmas for the heap proofs -/

section ListFacts

variable {α : Type} (d : α)

theorem getD_set_self (l : List α) (i : Nat) (a : α) (h : i < l.length) :
    (l.set i a).getD i d = a := by
  induction l generalizing i with
  | nil => simp at h
  | cons b bs ih =>
    cases i with
    | zero => rfl
    | succ i => exact ih i (by simpa using h)

theorem getD_set_ne (l : List α) (i j : Nat) (a : α) (h : i ≠ j) :
    (l.set i a).getD j d = l.getD j d := by
  induction l generalizing i j with
  | nil => simp [List.set]
  | cons b bs ih =>
    cases i with
    | zero =>
      cases j with
      | zero => exact absurd rfl h
      | succ j => rfl
    | succ i =>
      cases j with
      | zero => rfl
      | succ j => exact ih i j (fun e => h (by rw [e]))

theorem getD_append_left (l : List α) (x : α) (j : Nat) (h : j < l.length) :
    (l ++ [x]).getD j d = l.getD j d := by
  induction l generalizing j with
  | nil => simp at h
  | cons b bs ih =>
    cases j with
    | zero => rfl
    | succ j => exact ih j (by simpa using h)

theorem getD_append_last (l : List α) (x : α) :
    (l ++ [x]).getD l.length d = x := by
  induction l with
  | nil => rfl
  | cons b bs ih => exact ih

theorem getD_take (l : List α) (n j : Nat) (h : j < n) :
    (l.take n).getD j d = l.getD j d := by
  induction l generalizing n j with
  | nil => simp
  | cons b bs ih =>
    cases n with
    | zero => omega
    | succ n =>
      cases j with
      | zero => rfl
      | succ j => exact ih n j (by omega)

theorem set_append_last (l : List α) (x : α) : (l ++ [x]).set l.length x = l ++ [x] := by
  induction l with
  | nil => rfl
  | cons b bs ih => simpa using ih

theorem take_append_getD (l : List α) (h : 0 < l.length) :
    l.take (l.length - 1) ++ [l.getD (l.length - 1) d] = l := by
  induction l with
  | nil => simp at h
  | cons b bs ih =>
    cases bs with
    | nil => rfl
    | cons c cs =>
      have := ih (by simp)
      simp only [List.length_cons]
      simp only [List.length_cons] at this
      simpa [List.take_succ_cons] using congrArg (b :: ·) this

def cnt [DecidableEq α] (a : α) : List α → Nat
  | [] => 0
  | b :: bs => (if b = a then 1 else 0) + cnt a bs

theorem cnt_set [DecidableEq α] (l : List α) (i : Nat) (x a : α) (h : i < l.length) :
    cnt a (l.set i x) + (if l.getD i d = a then 1 else 0)
      = cnt a l + (if x = a then 1 else 0) := by
  induction l generalizing i with
  | nil => simp at h
  | cons b bs ih =>
    cases i with
    | zero =>
      simp only [List.set, List.getD_cons_zero, cnt]
      omega
    | succ i =>
      have hih := ih i (by simpa using h)
      simp only [List.set, List.getD_cons_succ, cnt]
      omega

theorem cnt_append [DecidableEq α] (a : α) (l1 l2 : List α) :
    cnt a (l1 ++ l2) = cnt a l1 + cnt a l2 := by
  induction l1 with
  | nil => simp [cnt]
  | cons b bs ih => simp [cnt, ih]; omega

theorem cnt_pos_iff_mem [DecidableEq α] (a : α) (l : List α) :
    0 < cnt a l ↔ a ∈ l := by
  induction l with
  | nil => simp [cnt]
  | cons b bs ih =>
    simp only [cnt, List.mem_cons]
    by_cases hb : b = a
    · subst hb
      simp
    · have : ¬a = b := fun e => hb e.symm
      simp [hb, this, ih]

theorem cnt_eq_count [DecidableEq α] (a : α) (l : List α) :
    cnt a l = l.count a := by
  induction l with
  | nil => rfl
  | cons b bs ih =>
    simp only [cnt, List.count_cons, ih, beq_iff_eq]
    by_cases hb : b = a
    · simp [hb]
      omega
    · have : ¬a = b := fun e => hb e.symm
      simp [hb, this]

end ListFacts

/-! ### Heap-order invariants for `heapq`

`heapq` keeps `heap[j] >= heap[(j-1)//2]` for every `j > 0`, i.e. no entry is
`<` its parent.  During a sift the position being filled is a hole: part A of
the hole invariant covers every edge not touching the hole, part B the
contracted edge from the hole's children to the hole's parent, and part C
compares the hole's children with the pending item. -/

section HeapqInv

variable {α : Type}

/-- The three properties of Python's `<` (as `heapq` relies on them) that the
heap arguments below need: asymmetry and transitivity of `<` and of `≥`. -/
structure LtOrder (lt : α → α → Bool) : Prop where
  asymm : ∀ a b, lt a b = true → lt b a = false
  ltTrans : ∀ a b c, lt a b = true → lt b c = true → lt a c = true
  leTrans : ∀ a b c, lt b a = false → lt c b = false → lt c a = false

variable (lt : α → α → Bool) (d : α)

theorem LtOrder.irrefl (ho : LtOrder lt) (a : α) : lt a a = false := by
  cases h : lt a a
  · rfl
  · have h2 := ho.asymm a a h
    rw [h] at h2
    exact h2

/-- The `heapq` invariant: no non-root entry is `<` its parent. -/
def HeapInv (heap : List α) : Prop :=
  ∀ j, 0 < j → j < heap.length →
    lt (heap.getD j d) (heap.getD ((j - 1) / 2) d) = false

/-- Hole invariant, part A. -/
def HoleA (heap : List α) (pos : Nat) : Prop :=
  ∀ j, 0 < j → j < heap.length → j ≠ pos → (j - 1) / 2 ≠ pos →
    lt (heap.getD j d) (heap.getD ((j - 1) / 2) d) = false

/-- Hole invariant, part B. -/
def HoleB (heap : List α) (pos : Nat) : Prop :=
  ∀ j, 0 < j → j < heap.length → (j - 1) / 2 = pos → 0 < pos →
    lt (heap.getD j d) (heap.getD ((pos - 1) / 2) d) = false

/-- Hole invariant, part C. -/
def HoleC (heap : List α) (pos : Nat) (x : α) : Prop :=
  ∀ j, 0 < j → j < heap.length → (j - 1) / 2 = pos →
    lt (heap.getD j d) x = false

theorem siftdownFuel_inv (ho : LtOrder lt) (fuel : Nat) :
    ∀ (heap : List α) (pos : Nat) (x : α), pos ≤ fuel → pos < heap.length →
      HoleA lt d heap pos → HoleB lt d heap pos → HoleC lt d heap pos x →
      HeapInv lt d (siftdownFuel lt d fuel heap 0 pos x) := by
  induction fuel with
  | zero =>
    intro heap pos x hf hpos hA hB hC
    have hp0 : pos = 0 := by omega
    subst hp0
    intro j hj0 hjlen
    simp only [siftdownFuel] at hjlen ⊢
    rw [List.length_set] at hjlen
    by_cases hpj : (j - 1) / 2 = 0
    · rw [getD_set_ne d heap 0 j _ (by omega), hpj,
          getD_set_self d heap 0 _ hpos]
      exact hC j hj0 hjlen hpj
    · rw [getD_set_ne d heap 0 j _ (by omega),
          getD_set_ne d heap 0 _ _ (fun e => hpj e.symm)]
      exact hA j hj0 hjlen (by omega) hpj
  | succ f ih =>
    intro heap pos x hf hpos hA hB hC
    simp only [siftdownFuel]
    split
    · rename_i hpos0
      split
      · rename_i hlt
        refine ih (heap.set pos (heap.getD ((pos - 1) / 2) d)) ((pos - 1) / 2) x
          (by omega) ?_ ?_ ?_ ?_
        · simp only [List.length_set]
          omega
        · -- HoleA at the new hole (pos-1)/2
          intro j hj0 hjlen hjne hjpar
          rw [List.length_set] at hjlen
          by_cases hjpos : j = pos
          · exact absurd (by rw [hjpos]) hjpar
          · by_cases hpj : (j - 1) / 2 = pos
            · rw [getD_set_ne d heap pos j _ (fun e => hjpos e.symm), hpj,
                  getD_set_self d heap pos _ hpos]
              exact hB j hj0 hjlen hpj hpos0
            · rw [getD_set_ne d heap pos j _ (fun e => hjpos e.symm),
                  getD_set_ne d heap pos _ _ (fun e => hpj e.symm)]
              exact hA j hj0 hjlen hjpos hpj
        · -- HoleB at the new hole
          intro j hj0 hjlen hjc hppos0
          rw [List.length_set] at hjlen
          have hgpne : ((pos - 1) / 2 - 1) / 2 ≠ pos := by omega
          rw [getD_set_ne d heap pos _ _ (fun e => hgpne e.symm)]
          have h2 := hA ((pos - 1) / 2) hppos0 (by omega) (by omega) (by omega)
          by_cases hjpos : j = pos
          · rw [hjpos, getD_set_self d heap pos _ hpos]
            exact h2
          · rw [getD_set_ne d heap pos j _ (fun e => hjpos e.symm)]
            have h1 := hA j hj0 hjlen hjpos (by omega)
            rw [hjc] at h1
            exact ho.leTrans _ _ _ h2 h1
        · -- HoleC at the new hole
          intro j hj0 hjlen hjc
          rw [List.length_set] at hjlen
          by_cases hjpos : j = pos
          · rw [hjpos, getD_set_self d heap pos _ hpos]
            exact ho.asymm _ _ hlt
          · rw [getD_set_ne d heap pos j _ (fun e => hjpos e.symm)]
            cases hgx : lt (heap.getD j d) x
            · rfl
            · have h1 := ho.ltTrans _ _ _ hgx hlt
              have h2 := hA j hj0 hjlen hjpos (by omega)
              rw [hjc] at h2
              rw [h1] at h2
              exact h2
      · rename_i hnlt
        -- stop: write x at pos (pos > 0, x not < parent)
        intro j hj0 hjlen
        rw [List.length_set] at hjlen
        by_cases hjpos : j = pos
        · rw [hjpos, getD_set_self d heap pos _ hpos,
              getD_set_ne d heap pos _ _ (by omega)]
          exact eq_false_of_ne_true hnlt
        · by_cases hpj : (j - 1) / 2 = pos
          · rw [getD_set_ne d heap pos j _ (fun e => hjpos e.symm), hpj,
                getD_set_self d heap pos _ hpos]
            exact hC j hj0 hjlen hpj
          · rw [getD_set_ne d heap pos j _ (fun e => hjpos e.symm),
                getD_set_ne d heap pos _ _ (fun e => hpj e.symm)]
            exact hA j hj0 hjlen hjpos hpj
    · rename_i hnpos
      have hp0 : pos = 0 := by omega
      subst hp0
      intro j hj0 hjlen
      rw [List.length_set] at hjlen
      by_cases hpj : (j - 1) / 2 = 0
      · rw [getD_set_ne d heap 0 j _ (by omega), hpj,
            getD_set_self d heap 0 _ hpos]
        exact hC j hj0 hjlen hpj
      · rw [getD_set_ne d heap 0 j _ (by omega),
            getD_set_ne d heap 0 _ _ (fun e => hpj e.symm)]
        exact hA j hj0 hjlen (by omega) hpj

theorem siftdownLoop_inv (ho : LtOrder lt) (pos : Nat) :
    ∀ (heap : List α) (x : α), pos < heap.length →
      HoleA lt d heap pos → HoleB lt d heap pos → HoleC lt d heap pos x →
      HeapInv lt d (siftdownLoop lt d heap 0 pos x) :=
  fun heap x hpos hA hB hC =>
    siftdownFuel_inv lt d ho pos heap pos x (Nat.le_refl pos) hpos hA hB hC

theorem heappush_inv (ho : LtOrder lt) (heap : List α) (x : α)
    (hInv : HeapInv lt d heap) : HeapInv lt d (heappush lt d heap x) := by
  unfold heappush
  refine siftdownLoop_inv lt d ho heap.length (heap ++ [x]) x ?_ ?_ ?_ ?_
  · simp
  · intro j hj0 hjlen hjne hjpar
    simp only [List.length_append, List.length_cons, List.length_nil] at hjlen
    have hjlt : j < heap.length := by omega
    rw [getD_append_left d heap x j hjlt, getD_append_left d heap x _ (by omega)]
    exact hInv j hj0 hjlt
  · intro j hj0 hjlen hjc hppos
    simp only [List.length_append, List.length_cons, List.length_nil] at hjlen
    omega
  · intro j hj0 hjlen hjc
    simp only [List.length_append, List.length_cons, List.length_nil] at hjlen
    omega

theorem heapInv_root (ho : LtOrder lt) (heap : List α) (hInv : HeapInv lt d heap) :
    ∀ j, j < heap.length → lt (heap.getD j d) (heap.getD 0 d) = false := by
  intro j
  induction j using Nat.strong_induction_on with
  | _ j ihj =>
    intro hjlen
    rcases Nat.eq_zero_or_pos j with h0 | hpos
    · subst h0
      exact ho.irrefl lt _
    · exact ho.leTrans _ _ _ (ihj ((j - 1) / 2) (by omega) (by omega))
        (hInv j hpos hjlen)

theorem pickChild_child (heap : List α) (pos : Nat) :
    (pickChild lt d heap pos - 1) / 2 = pos := by
  unfold pickChild
  split <;> omega

theorem pickChild_min (heap : List α) (pos j : Nat) (ho : LtOrder lt)
    (hc : 2 * pos + 1 < heap.length) (hj : (j - 1) / 2 = pos) (hj0 : 0 < j)
    (hjlen : j < heap.length) (hjne : j ≠ pickChild lt d heap pos) :
    lt (heap.getD j d) (heap.getD (pickChild lt d heap pos) d) = false := by
  by_cases hcond : 2 * pos + 2 < heap.length ∧
      lt (heap.getD (2 * pos + 1) d) (heap.getD (2 * pos + 2) d) = false
  · rw [pickChild, if_pos hcond] at hjne ⊢
    have hj1 : j = 2 * pos + 1 := by omega
    rw [hj1]
    exact hcond.2
  · rw [pickChild, if_neg hcond] at hjne ⊢
    have hj2 : j = 2 * pos + 2 := by omega
    have hlen2 : 2 * pos + 2 < heap.length := by omega
    have hlr : lt (heap.getD (2 * pos + 1) d) (heap.getD (2 * pos + 2) d) = true := by
      cases h : lt (heap.getD (2 * pos + 1) d) (heap.getD (2 * pos + 2) d)
      · exact absurd ⟨hlen2, h⟩ hcond
      · rfl
    rw [hj2]
    exact ho.asymm _ _ hlr

theorem siftupFuel_inv (ho : LtOrder lt) (fuel : Nat) :
    ∀ (heap : List α) (pos : Nat) (x : α), heap.length ≤ pos + fuel →
      pos < heap.length → HoleA lt d heap pos → HoleB lt d heap pos →
      HeapInv lt d (siftupFuel lt d fuel heap pos x) := by
  induction fuel with
  | zero =>
    intro heap pos x hfuel hpos hA hB
    simp only [siftupFuel]
    · refine siftdownLoop_inv lt d ho pos (heap.set pos x) x ?_ ?_ ?_ ?_
      · simp only [List.length_set]
        exact hpos
      · intro j hj0 hjlen hjne hjpar
        rw [List.length_set] at hjlen
        rw [getD_set_ne d heap pos j _ (fun e => hjne e.symm),
            getD_set_ne d heap pos _ _ (fun e => hjpar e.symm)]
        exact hA j hj0 hjlen hjne hjpar
      · intro j hj0 hjlen hjc hppos
        rw [List.length_set] at hjlen
        omega
      · intro j hj0 hjlen hjc
        rw [List.length_set] at hjlen
        omega
  | succ fuel ih =>
    intro heap pos x hfuel hpos hA hB
    simp only [siftupFuel]
    split
    · rename_i hc
      have hcp1 := pickChild_lb lt d heap pos
      have hcp2 := pickChild_ub lt d heap pos hc
      have hcpc := pickChild_child lt d heap pos
      refine ih (heap.set pos (heap.getD (pickChild lt d heap pos) d))
        (pickChild lt d heap pos) x ?_ ?_ ?_ ?_
      · simp only [List.length_set]
        omega
      · simp only [List.length_set]
        exact hcp2
      · -- HoleA at the new hole cpos
        intro j hj0 hjlen hjne hjpar
        rw [List.length_set] at hjlen
        by_cases hjpos : j = pos
        · have hppne : (pos - 1) / 2 ≠ pos := by omega
          rw [hjpos, getD_set_self d heap pos _ hpos,
              getD_set_ne d heap pos _ _ (fun e => hppne e.symm)]
          have hp0 : 0 < pos := by omega
          exact hB (pickChild lt d heap pos) (by omega) hcp2 hcpc hp0
        · by_cases hpj : (j - 1) / 2 = pos
          · rw [getD_set_ne d heap pos j _ (fun e => hjpos e.symm), hpj,
                getD_set_self d heap pos _ hpos]
            exact pickChild_min lt d heap pos j ho hc hpj hj0 hjlen hjne
          · rw [getD_set_ne d heap pos j _ (fun e => hjpos e.symm),
                getD_set_ne d heap pos _ _ (fun e => hpj e.symm)]
            exact hA j hj0 hjlen hjpos hpj
      · -- HoleB at the new hole cpos
        intro j hj0 hjlen hjc hcpos0
        rw [List.length_set] at hjlen
        have hjgt : pos < j := by omega
        rw [hcpc, getD_set_self d heap pos _ hpos,
            getD_set_ne d heap pos j _ (by omega)]
        have h1 := hA j hj0 hjlen (by omega) (by rw [hjc]; omega)
        rw [hjc] at h1
        exact h1
    · rename_i hnc
      refine siftdownLoop_inv lt d ho pos (heap.set pos x) x ?_ ?_ ?_ ?_
      · simp only [List.length_set]
        exact hpos
      · intro j hj0 hjlen hjne hjpar
        rw [List.length_set] at hjlen
        rw [getD_set_ne d heap pos j _ (fun e => hjne e.symm),
            getD_set_ne d heap pos _ _ (fun e => hjpar e.symm)]
        exact hA j hj0 hjlen hjne hjpar
      · intro j hj0 hjlen hjc hppos
        rw [List.length_set] at hjlen
        omega
      · intro j hj0 hjlen hjc
        rw [List.length_set] at hjlen
        omega

theorem siftupLoop_inv (ho : LtOrder lt) (heap : List α) (pos : Nat) (x : α)
    (hpos : pos < heap.length) (hA : HoleA lt d heap pos) (hB : HoleB lt d heap pos) :
    HeapInv lt d (siftupLoop lt d heap pos x) :=
  siftupFuel_inv lt d ho heap.length heap pos x (by omega) hpos hA hB

theorem heappop_inv (ho : LtOrder lt) (heap : List α) (x : α) (h2 : List α)
    (hpop : heappop lt d heap = some (x, h2)) (hInv : HeapInv lt d heap) :
    HeapInv lt d h2 := by
  match heap with
  | [] => simp [heappop] at hpop
  | a :: rest =>
    unfold heappop at hpop
    split at hpop
    · exact absurd hpop (by simp)
    · split at hpop
      · cases hpop
        intro j hj0 hjlen
        simp at hjlen
      · rename_i hne1
        cases hpop
        have hlen2 : 2 ≤ (a :: rest).length := by
          cases rest with
          | nil => simp at hne1
          | cons b bs => simp
        refine siftupLoop_inv lt d ho _ 0 _ ?_ ?_ ?_
        · simp only [List.length_set, List.length_take]
          omega
        · intro j hj0 hjlen hjne hjpar
          rw [List.length_set, List.length_take] at hjlen
          have hjlt : j < (a :: rest).length - 1 := by omega
          rw [getD_set_ne d _ 0 j _ (by omega),
              getD_set_ne d _ 0 _ _ (fun e => hjpar e.symm),
              getD_take d _ _ j hjlt, getD_take d _ _ _ (by omega)]
          exact hInv j hj0 (by omega)
        · intro j hj0 hjlen hjc hppos
          omega

theorem heappop_root (heap : List α) (x : α) (h2 : List α)
    (hpop : heappop lt d heap = some (x, h2)) : x = heap.getD 0 d := by
  match heap with
  | [] => simp [heappop] at hpop
  | a :: rest =>
    unfold heappop at hpop
    split at hpop
    · exact absurd hpop (by simp)
    · split at hpop
      · cases hpop
        rfl
      · rename_i hne1
        cases hpop
        have hlen2 : 2 ≤ (a :: rest).length := by
          cases rest with
          | nil => simp at hne1
          | cons b bs => simp
        exact getD_take d (a :: rest) ((a :: rest).length - 1) 0 (by omega)

variable [DecidableEq α]

theorem siftdownFuel_cnt (fuel : Nat) :
    ∀ (heap : List α) (startpos pos : Nat) (x a : α), pos ≤ fuel → pos < heap.length →
      cnt a (siftdownFuel lt d fuel heap startpos pos x) = cnt a (heap.set pos x) := by
  induction fuel with
  | zero =>
    intro heap startpos pos x a hf hpos
    rfl
  | succ f ih =>
    intro heap startpos pos x a hf hpos
    simp only [siftdownFuel]
    split
    · split
      · rw [ih _ _ _ _ _ (by omega) (by simp only [List.length_set]; omega)]
        have e1 := cnt_set d (heap.set pos (heap.getD ((pos - 1) / 2) d))
          ((pos - 1) / 2) x a (by simp only [List.length_set]; omega)
        rw [getD_set_ne d heap pos ((pos - 1) / 2) _ (by omega)] at e1
        have e2 := cnt_set d heap pos (heap.getD ((pos - 1) / 2) d) a hpos
        have e3 := cnt_set d heap pos x a hpos
        omega
      · rfl
    · rfl

theorem siftdownLoop_cnt (heap : List α) (startpos pos : Nat) (x a : α)
    (hpos : pos < heap.length) :
    cnt a (siftdownLoop lt d heap startpos pos x) = cnt a (heap.set pos x) :=
  siftdownFuel_cnt lt d pos heap startpos pos x a (Nat.le_refl pos) hpos

theorem siftupFuel_cnt (fuel : Nat) :
    ∀ (heap : List α) (pos : Nat) (x a : α), heap.length ≤ pos + fuel →
      pos < heap.length →
      cnt a (siftupFuel lt d fuel heap pos x) = cnt a (heap.set pos x) := by
  induction fuel with
  | zero =>
    intro heap pos x a hfuel hpos
    simp only [siftupFuel]
    rw [siftdownLoop_cnt lt d (heap.set pos x) 0 pos x a
        (by simp only [List.length_set]; omega), List.set_set]
  | succ fuel ih =>
    intro heap pos x a hfuel hpos
    simp only [siftupFuel]
    split
    · rename_i hc
      have hcp1 := pickChild_lb lt d heap pos
      have hcp2 := pickChild_ub lt d heap pos hc
      rw [ih _ _ _ _ (by simp only [List.length_set]; omega)
          (by simp only [List.length_set]; omega)]
      have e1 := cnt_set d (heap.set pos (heap.getD (pickChild lt d heap pos) d))
        (pickChild lt d heap pos) x a (by simp only [List.length_set]; omega)
      rw [getD_set_ne d heap pos (pickChild lt d heap pos) _ (by omega)] at e1
      have e2 := cnt_set d heap pos (heap.getD (pickChild lt d heap pos) d) a hpos
      have e3 := cnt_set d heap pos x a hpos
      omega
    · rw [siftdownLoop_cnt lt d (heap.set pos x) 0 pos x a
          (by simp only [List.length_set]; omega), List.set_set]

theorem siftupLoop_cnt (heap : List α) (pos : Nat) (x a : α)
    (hpos : pos < heap.length) :
    cnt a (siftupLoop lt d heap pos x) = cnt a (heap.set pos x) :=
  siftupFuel_cnt lt d heap.length heap pos x a (by omega) hpos

theorem heappush_cnt (heap : List α) (x a : α) :
    cnt a (heappush lt d heap x) = cnt a heap + (if x = a then 1 else 0) := by
  unfold heappush
  rw [siftdownLoop_cnt lt d (heap ++ [x]) 0 heap.length x a (by simp),
      set_append_last, cnt_append]
  simp [cnt]

theorem heappop_cnt (heap : List α) (x : α) (h2 : List α) (a : α)
    (hpop : heappop lt d heap = some (x, h2)) :
    cnt a h2 + (if x = a then 1 else 0) = cnt a heap := by
  match heap with
  | [] => simp [heappop] at hpop
  | b :: rest =>
    unfold heappop at hpop
    split at hpop
    · exact absurd hpop (by simp)
    · split at hpop
      · rename_i h1
        cases hpop
        have : rest = [] := by
          cases rest with
          | nil => rfl
          | cons c cs => simp at h1
        subst this
        simp [cnt]
      · rename_i hne1
        cases hpop
        have hlen2 : 2 ≤ (b :: rest).length := by
          cases rest with
          | nil => simp at hne1
          | cons c cs => simp
        rw [siftupLoop_cnt lt d
            (((b :: rest).take ((b :: rest).length - 1)).set 0
              ((b :: rest).getD ((b :: rest).length - 1) d)) 0
            ((b :: rest).getD ((b :: rest).length - 1) d) a
            (by simp only [List.length_set, List.length_take]; omega), List.set_set]
        have e1 := cnt_set d ((b :: rest).take ((b :: rest).length - 1)) 0
          ((b :: rest).getD ((b :: rest).length - 1) d) a
          (by simp only [List.length_take]; omega)
        have hsplit := take_append_getD d (b :: rest) (by simp)
        have e2 : cnt a (b :: rest)
            = cnt a ((b :: rest).take ((b :: rest).length - 1))
              + cnt a [(b :: rest).getD ((b :: rest).length - 1) d] := by
          conv_lhs => rw [← hsplit]
          rw [cnt_append]
        have e3 : cnt a [(b :: rest).getD ((b :: rest).length - 1) d]
            = if (b :: rest).getD ((b :: rest).length - 1) d = a then 1 else 0 := by
          simp [cnt]
        rw [getD_take d (b :: rest) ((b :: rest).length - 1) 0 (by omega)] at e1
        rw [getD_take d (b :: rest) ((b :: rest).length - 1) 0 (by omega)]
        omega

theorem mem_getD_of_mem (l : List α) (a : α) (h : a ∈ l) :
    ∃ j, j < l.length ∧ l.getD j d = a := by
  induction l with
  | nil => simp at h
  | cons b bs ih =>
    rcases List.mem_cons.mp h with rfl | h2
    · exact ⟨0, by simp, rfl⟩
    · obtain ⟨j, hj, hja⟩ := ih h2
      exact ⟨j + 1, by simp; omega, hja⟩

theorem heappop_none_iff (heap : List α) : heappop lt d heap = none ↔ heap = [] := by
  constructor
  · intro h
    match heap with
    | [] => rfl
    | a :: rest =>
      unfold heappop at h
      split at h
      · rename_i heq
        exact heq
      · split at h <;> cases h
  · rintro rfl
    rfl

theorem popAll_cnt (n : Nat) :
    ∀ (heap : List α), heap.length = n → ∀ a, cnt a (popAll lt d heap) = cnt a heap := by
  induction n using Nat.strong_induction_on with
  | _ n ih =>
    intro heap hlen a
    cases hpop : heappop lt d heap with
    | none =>
      rw [popAll_eq_nil lt d heap hpop, (heappop_none_iff lt d heap).mp hpop]
    | some p =>
      obtain ⟨x, h2⟩ := p
      have hne : heap ≠ [] := by
        intro e
        rw [e] at hpop
        cases hpop
      have hpos : 0 < heap.length := List.length_pos.mpr hne
      have hl2 := heappop_length lt d heap x h2 hpop
      rw [popAll_eq_cons lt d heap x h2 hpop]
      have hrec := ih h2.length (by omega) h2 rfl a
      have hc := heappop_cnt lt d heap x h2 a hpop
      simp only [cnt]
      omega

theorem popAll_perm (heap : List α) : (popAll lt d heap).Perm heap := by
  rw [List.perm_iff_count]
  intro a
  rw [← cnt_eq_count, ← cnt_eq_count]
  exact popAll_cnt lt d heap.length heap rfl a

/-- The pops of a well-formed heap come out in non-decreasing order: every
later pop is not `<` an earlier one. -/
theorem popAll_sorted (ho : LtOrder lt) (n : Nat) :
    ∀ (heap : List α), heap.length = n → HeapInv lt d heap →
      (popAll lt d heap).Pairwise (fun a b => lt b a = false) := by
  induction n using Nat.strong_induction_on with
  | _ n ih =>
    intro heap hlen hInv
    cases hpop : heappop lt d heap with
    | none =>
      rw [popAll_eq_nil lt d heap hpop]
      exact List.Pairwise.nil
    | some p =>
      obtain ⟨x, h2⟩ := p
      have hne : heap ≠ [] := by
        intro e
        rw [e] at hpop
        cases hpop
      have hpos : 0 < heap.length := List.length_pos.mpr hne
      have hl2 := heappop_length lt d heap x h2 hpop
      rw [popAll_eq_cons lt d heap x h2 hpop]
      refine List.Pairwise.cons ?_
        (ih h2.length (by omega) h2 rfl (heappop_inv lt d ho heap x h2 hpop hInv))
      intro z hz
      have hz2 : z ∈ h2 := (popAll_perm lt d h2).mem_iff.mp hz
      have hcnt := heappop_cnt lt d heap x h2 z hpop
      have hzpos : 0 < cnt z h2 := (cnt_pos_iff_mem z h2).mpr hz2
      have hzheap : z ∈ heap := (cnt_pos_iff_mem z heap).mp (by omega)
      obtain ⟨j, hjlen, hjz⟩ := mem_getD_of_mem d heap z hzheap
      rw [heappop_root lt d heap x h2 hpop, ← hjz]
      exact heapInv_root lt d ho heap hInv j hjlen

end HeapqInv

/-! ## `webants/scheduler.py` -/

/-- Python `<` on the `(request.priority, request)` tuples the scheduler and
downloader enqueue: tuple comparison compares the integer priorities first;
on a tie it consults `Request.__eq__` (fingerprint equality; equal fingerprints
make the tuples compare as equal, hence not `<`) and then `Request.__lt__`
(which again compares priorities). -/
def entryLt (a b : Int × Req) : Bool :=
  if a.1 = b.1 then
    if reqEqB a.2 b.2 then false else decide (a.2.priority < b.2.priority)
  else decide (a.1 < b.1)

/-- An entry of the scheduler's priority queue.  The queue only ever receives
tuples built as `(request.priority, request)` (`scheduler.py` line 163 and
`downloader.py` line 285), which the invariant of this subtype records. -/
def SEntry : Type := {e : Int × Req // e.1 = e.2.priority}

instance : DecidableEq SEntry := Subtype.instDecidableEq

/-- The tuple the scheduler enqueues for a request. -/
def mkSEntry (r : Req) : SEntry := ⟨(r.priority, r), rfl⟩

/-- `entryLt` restricted to well-formed queue entries. -/
def sLt (a b : SEntry) : Bool := entryLt a.val b.val

/-- On well-formed entries the tuple comparison is exactly comparison of the
priorities: on a priority tie the fallback `Request.__lt__` compares the same
two priorities again and returns `False`. -/
theorem sLt_eq_priority (a b : SEntry) : sLt a b = decide (a.val.1 < b.val.1) := by
  obtain ⟨⟨p1, r1⟩, h1⟩ := a
  obtain ⟨⟨p2, r2⟩, h2⟩ := b
  simp only at h1 h2
  unfold sLt entryLt
  simp only
  by_cases hp : p1 = p2
  · rw [if_pos hp]
    have hr : r1.priority = r2.priority := by rw [← h1, ← h2, hp]
    have : decide (r1.priority < r2.priority) = false := by
      rw [hr]
      simp
    rw [this]
    have : decide (p1 < p2) = false := by
      rw [hp]
      simp
    rw [this]
    split <;> rfl
  · rw [if_neg hp]

theorem sLt_order : LtOrder sLt := by
  constructor
  · intro a b h
    rw [sLt_eq_priority] at h ⊢
    simp only [decide_eq_true_eq] at h
    simp only [decide_eq_false_iff_not]
    omega
  · intro a b c h1 h2
    rw [sLt_eq_priority] at h1 h2 ⊢
    simp only [decide_eq_true_eq] at h1 h2 ⊢
    omega
  · intro a b c h1 h2
    rw [sLt_eq_priority] at h1 h2 ⊢
    simp only [decide_eq_false_iff_not] at h1 h2 ⊢
    omega

/-- Default `Req` (only used as the out-of-bounds placeholder of list
indexing in the heap model; never read on in-bounds data). -/
def reqDefault : Req :=
  { url := [], method := [], body := none, dont_filter := false, priority := 0,
    retries := 0, delay := 0, timeout := none, hasCallback := false }

/-- Out-of-bounds placeholder entry for the heap model. -/
def sEntryDefault : SEntry := ⟨(0, reqDefault), rfl⟩

/-- `dict.get` on an association list keyed by strings. -/
def lookupA {β : Type} (m : List (Str × β)) (k : Str) : Option β :=
  match m with
  | [] => none
  | (k2, v) :: rest => if k2 = k then some v else lookupA rest k

/-- `dict.__setitem__` on an association list. -/
def setA {β : Type} (m : List (Str × β)) (k : Str) (v : β) : List (Str × β) :=
  match m with
  | [] => [(k, v)]
  | (k2, v2) :: rest => if k2 = k then (k2, v) :: rest else (k2, v2) :: setA rest k v

/-- `Scheduler._get_domain`: `urlparse(url).netloc.split(":")[0]`. -/
def getDomain (url : Str) : Str :=
  (pyUrlparse url).netloc.takeWhile (fun c => c ≠ ':')

/-- The per-domain dict entries of `Scheduler.domain_stats`. -/
structure DomainStat where
  last_request : Rat
  total_requests : Nat
  active_requests : Int
  avg_delay : Rat
  min_delay : Rat
  max_delay : Rat
deriving DecidableEq

/-- The state of a `Scheduler` (constructor arguments plus the mutable
fields; the `stats` dict is flattened into the scalar counters and the two
per-domain maps it holds). -/
structure SchedState where
  max_requests : Nat
  request_delay : Rat
  domain_delay : Rat
  max_domain_concurrent : Nat
  max_queue_size : Nat
  request_queue : List SEntry
  seen_urls : List Str
  domain_stats : List (Str × DomainStat)
  domain_semaphores : List (Str × Nat)
  total_scheduled : Nat
  total_filtered : Nat
  active_domains : Nat
  current_requests : Int
  queue_full_count : Nat
  domain_delays : List (Str × (Rat × Rat × Rat))
  domain_concurrency : List (Str × Int)
deriving DecidableEq

/-- `Scheduler.__init__`. -/
def mkScheduler (max_requests : Nat) (request_delay domain_delay : Rat)
    (max_domain_concurrent max_queue_size : Nat) : SchedState :=
  { max_requests := max_requests
    request_delay := request_delay
    domain_delay := domain_delay
    max_domain_concurrent := max_domain_concurrent
    max_queue_size := max_queue_size
    request_queue := []
    seen_urls := []
    domain_stats := []
    domain_semaphores := []
    total_scheduled := 0
    total_filtered := 0
    active_domains := 0
    current_requests := 0
    queue_full_count := 0
    domain_delays := []
    domain_concurrency := [] }

/-- `Scheduler.__init__` with its default arguments. -/
def mkSchedulerD : SchedState := mkScheduler 0 0 0 10 10000

/-- Result of `Scheduler.schedule_request`: the source returns `False` both
for the cap branch and the duplicate branch (and on errors); the outcome
marker records which branch ran, which is observable through the counters.
`blocked` stands for suspension inside `await` (semaphore acquire or a put on
a full queue). -/
inductive SchedOutcome where
  | scheduled
  | filtered
  | rejectedCap
  | blocked
deriving DecidableEq

/-- The body of `Scheduler.schedule_request` past the cap and duplicate
checks: domain bookkeeping, semaphore acquire, EWMA update, enqueue. -/
def schedule_enqueue (st : SchedState) (r : Req) (tEnter tDispatch : Rat) :
    SchedState × SchedOutcome :=
    let domain := getDomain r.url
    -- lazy creation of the domain state and semaphore
    let st1 :=
      match lookupA st.domain_stats domain with
      | some _ => st
      | none =>
        {st with
          domain_stats := setA st.domain_stats domain
            { last_request := 0, total_requests := 0, active_requests := 0,
              avg_delay := st.domain_delay, min_delay := st.domain_delay,
              max_delay := st.domain_delay },
          domain_semaphores := setA st.domain_semaphores domain st.max_domain_concurrent,
          active_domains := st.active_domains + 1}
    -- await self.domain_semaphores[domain].acquire()
    match lookupA st1.domain_semaphores domain with
    | none => (st1, .blocked)
    | some semv =>
      if semv = 0 then (st1, .blocked)
      else
        let st2 := {st1 with
          domain_semaphores := setA st1.domain_semaphores domain (semv - 1)}
        match lookupA st2.domain_stats domain with
        | none => (st2, .blocked)
        | some ds0 =>
          -- adaptive delay bookkeeping (EWMA, alpha = 0.2)
          let ds1 :=
            if 0 < ds0.total_requests then
              { ds0 with
                avg_delay := (1 / 5 : Rat) * (tEnter - ds0.last_request)
                  + (4 / 5 : Rat) * ds0.avg_delay,
                min_delay := min ds0.min_delay (tEnter - ds0.last_request),
                max_delay := max ds0.max_delay (tEnter - ds0.last_request) }
            else ds0
          let st3 :=
            if 0 < ds0.total_requests then
              {st2 with
                domain_delays :=
                  setA st2.domain_delays domain (ds1.avg_delay, ds1.min_delay, ds1.max_delay)}
            else st2
          -- await asyncio.sleep(effective_delay): no state effect
          let ds2 := { ds1 with
            total_requests := ds1.total_requests + 1,
            active_requests := ds1.active_requests + 1,
            last_request := tDispatch }
          let st4 := {st3 with
            seen_urls :=
              if r.url ∈ st3.seen_urls then st3.seen_urls else st3.seen_urls ++ [r.url],
            total_scheduled := st3.total_scheduled + 1,
            domain_stats := setA st3.domain_stats domain ds2,
            current_requests := st3.current_requests + 1,
            domain_concurrency := setA st3.domain_concurrency domain ds2.active_requests}
          -- await self.request_queue.put((request.priority, request))
          if st4.max_queue_size ≠ 0 ∧ st4.max_queue_size ≤ st4.request_queue.length then
            (st4, .blocked)
          else
            ({st4 with
              request_queue := heappush sLt sEntryDefault st4.request_queue (mkSEntry r)},
             .scheduled)

/-- `Scheduler.schedule_request`.  `tEnter` is the `time.time()` read by the
EWMA update, `tDispatch` the `time.time()` stored as `last_request`; the
jittered politeness sleep between them has no state effect and is not
represented. -/
def schedule_request (st : SchedState) (r : Req) (tEnter tDispatch : Rat) :
    SchedState × SchedOutcome :=
  -- if self.max_requests and self.stats["total_scheduled"] >= self.max_requests
  if st.max_requests ≠ 0 ∧ st.max_requests ≤ st.total_scheduled then
    (st, .rejectedCap)
  -- if request.url in self.seen_urls and not request.dont_filter
  else if r.url ∈ st.seen_urls ∧ r.dont_filter = false then
    ({st with total_filtered := st.total_filtered + 1}, .filtered)
  else schedule_enqueue st r tEnter tDispatch

/-- `Scheduler.get_request` (`await self.request_queue.get()` suspends on an
empty queue, modelled as `none`; the global `request_delay` sleep has no
state effect). -/
def get_request (st : SchedState) : Option (SchedState × Req) :=
  match heappop sLt sEntryDefault st.request_queue with
  | none => none
  | some (e, q2) => some ({st with request_queue := q2}, e.val.2)

/-- `Scheduler.request_completed` (`none` models the `KeyError` the source
raises when the domain was never scheduled). -/
def request_completed (st : SchedState) (r : Req) : Option SchedState :=
  let domain := getDomain r.url
  match lookupA st.domain_stats domain with
  | none => none
  | some ds =>
    let st1 := {st with
      domain_stats := setA st.domain_stats domain
        {ds with active_requests := ds.active_requests - 1},
      current_requests := st.current_requests - 1}
    match lookupA st1.domain_semaphores domain with
    | none => some st1
    | some v =>
      some {st1 with domain_semaphores := setA st1.domain_semaphores domain (v + 1)}

/-! ## `webants/downloader.py` -/

/-- `Downloader.RETRY_CODES`: status code → (max_retries, backoff_factor). -/
def RETRY_CODES : List (Nat × Nat × Nat) :=
  [(403, 5, 2), (404, 5, 2), (408, 3, 2), (420, 3, 2), (429, 3, 5),
   (500, 3, 2), (502, 3, 2), (503, 3, 2), (504, 3, 2)]

/-- `status in RETRY_CODES` / `RETRY_CODES[status]`. -/
def retryCfg (status : Nat) : Option (Nat × Nat) :=
  match RETRY_CODES.find? (fun c => c.1 = status) with
  | none => none
  | some c => some c.2

/-- The downloader statistics dict (`min_response_time` starts at
`float("inf")`, modelled as `none`). -/
structure DlStats where
  total_requests : Nat
  successful_requests : Nat
  failed_requests : Nat
  retry_requests : Nat
  total_retries : Nat
  total_time : Rat
  min_response_time : Option Rat
  max_response_time : Rat
  avg_response_time : Rat
deriving DecidableEq

/-- `Downloader` state: statistics, configuration, the retried-URL set and
the request queue (the response queue and the `httpx` client carry no state
any claim observes). -/
structure DlState where
  stats : DlStats
  delay : Rat
  retry_delay : Rat
  retry_requests : List Str
  request_queue : List (Int × Req)
deriving DecidableEq

/-- `Downloader.__init__` with queue empty and default `delay=0`,
`retry_delay=1`. -/
def mkDownloaderD : DlState :=
  { stats :=
    { total_requests := 0, successful_requests := 0, failed_requests := 0,
      retry_requests := 0, total_retries := 0, total_time := 0,
      min_response_time := none, max_response_time := 0, avg_response_time := 0 }
    delay := 0
    retry_delay := 1
    retry_requests := []
    request_queue := [] }

/-- What the network does for one attempt: an HTTP response with a status
code, an `httpx.HTTPError`, or any other exception. -/
inductive NetOutcome where
  | http (status : Nat)
  | httpError
  | otherError
deriving DecidableEq

/-- The value `Downloader._fetch` returns: the `httpx.Response` (abstracted to
its status code) or the request itself as a retry marker. -/
inductive FetchResult where
  | resp (status : Nat)
  | req
deriving DecidableEq

/-- `Downloader._update_stats`. -/
def update_stats (s : DlStats) (elapsed : Rat) : DlStats :=
  let s := { s with
    total_time := s.total_time + elapsed,
    min_response_time :=
      match s.min_response_time with
      | none => some elapsed
      | some m => some (min m elapsed),
    max_response_time := max s.max_response_time elapsed }
  if 0 < s.successful_requests + s.failed_requests then
    { s with avg_response_time :=
        s.total_time / (s.successful_requests + s.failed_requests : Nat) }
  else s

/-- `Downloader._fetch` (the `await asyncio.sleep(delay)` and the header
overlay have no state effect on anything a claim observes; `net` is what the
HTTP exchange produced, `elapsed` the measured wall time). -/
def pyFetch (st : DlState) (r : Req) (net : NetOutcome) (elapsed : Rat) :
    DlState × FetchResult :=
  let stats0 :=
    if r.url ∈ st.retry_requests then st.stats
    else { st.stats with total_requests := st.stats.total_requests + 1 }
  match net with
  | .http status =>
    let stats1 := update_stats stats0 elapsed
    let stats2 :=
      if (retryCfg status).isNone then
        { stats1 with successful_requests := stats1.successful_requests + 1 }
      else stats1
    ({st with stats := stats2}, .resp status)
  | .httpError =>
    let stats1 := update_stats stats0 elapsed
    ({st with stats := { stats1 with failed_requests := stats1.failed_requests + 1 }}, .req)
  | .otherError =>
    ({st with stats := { stats0 with failed_requests := stats0.failed_requests + 1 }}, .req)

/-- `Downloader._retry_request`: count the retry, decrement the budget, lower
the priority, remember the URL in the retry set, re-queue. -/
def retry_request (st : DlState) (r : Req) : DlState × Req :=
  let stats1 := { st.stats with total_retries := st.stats.total_retries + 1 }
  let r2 := { r with retries := r.retries - 1, priority := r.priority + 10 }
  let (stats2, rset2) :=
    if r2.url ∈ st.retry_requests then (stats1, st.retry_requests)
    else ({ stats1 with retry_requests := stats1.retry_requests + 1 },
          st.retry_requests ++ [r2.url])
  ({ st with
     stats := stats2
     retry_requests := rset2
     request_queue := heappush entryLt (0, reqDefault) st.request_queue (r2.priority, r2) },
   r2)

/-- `float(n)` for a Python `int`, as a kernel-computable `Rat`. -/
def ratOfNat (n : Nat) : Rat := mkRat (Int.ofNat n) 1

/-- Python `**` on a positive float base with an `int` exponent, as a
kernel-computable function on `Rat` (negative exponents give reciprocals). -/
def ratPowInt (b : Rat) (e : Int) : Rat :=
  match e with
  | .ofNat n => b ^ n
  | .negSucc n => 1 / b ^ (n + 1)

/-- What `Downloader.fetch_retry` returns: a response (status plus the
`retry_exhausted` extension flag of the synthetic 600), `None`, or the value
of the user callback. -/
inductive FRResult where
  | response (status : Nat) (retry_exhausted : Bool)
  | nil
  | callbackResult
deriving DecidableEq

/-- `Downloader.fetch_retry`.  Besides the mutated state and the returned
value, the request object as mutated for a retry (`None` when no retry was
queued) is returned for use in iterated runs. -/
def fetch_retry (st : DlState) (r : Req) (net : NetOutcome) (elapsed : Rat) :
    DlState × FRResult × Option Req :=
  match pyFetch st r net elapsed with
  | (st1, .resp status) =>
    match retryCfg status with
    | some cfg =>
      if 0 < r.retries then
        -- backoff_delay = retry_delay * backoff_factor ** (max_retries - retries)
        let backoff_delay : Rat :=
          st1.retry_delay * ratPowInt (ratOfNat cfg.2) ((cfg.1 : Int) - r.retries)
        let r1 := { r with delay := backoff_delay }
        let (st2, r2) := retry_request st1 r1
        (st2, .nil, some r2)
      else
        -- `return None` sits outside the `if request.retries > 0` block
        (st1, .nil, none)
    | none =>
      if r.hasCallback then (st1, .callbackResult, none)
      else (st1, .response status false, none)
  | (st1, .req) =>
    if 0 < r.retries then
      let (st2, r2) := retry_request st1 r
      (st2, .nil, some r2)
    else
      ({st1 with stats :=
          { st1.stats with failed_requests := st1.stats.failed_requests + 1 }},
       .response 600 true, none)

/-- `n` consecutive `fetch_retry` attempts that all see the same HTTP status,
each feeding the mutated request of the previous retry into the next attempt
(elapsed times are irrelevant to the counters and are passed as 0). -/
def runRetries (st : DlState) (r : Req) (status : Nat) : Nat → DlState × Req
  | 0 => (st, r)
  | n + 1 =>
    match fetch_retry st r (.http status) 0 with
    | (st1, _, some r1) => runRetries st1 r1 status n
    | (st1, _, none) => (st1, r)

/-! ## `webants/spider.py`: `CircuitBreaker` -/

/-- The three circuit-breaker states (`"closed"`, `"open"`, `"half-open"`). -/
inductive CBState where
  | closed
  | opened
  | halfOpen
deriving DecidableEq

/-- `CircuitBreaker` state. -/
structure CircuitBreaker where
  failure_threshold : Nat
  recovery_timeout : Rat
  failures : Nat
  last_failure_time : Rat
  state : CBState
deriving DecidableEq

/-- `CircuitBreaker.__init__`. -/
def mkCircuitBreaker (failure_threshold : Nat) (recovery_timeout : Rat) :
    CircuitBreaker :=
  { failure_threshold := failure_threshold, recovery_timeout := recovery_timeout,
    failures := 0, last_failure_time := 0, state := .closed }

/-- `CircuitBreaker.record_failure` (`now` is `time.time()`). -/
def record_failure (cb : CircuitBreaker) (now : Rat) : CircuitBreaker :=
  let cb1 := { cb with failures := cb.failures + 1, last_failure_time := now }
  if cb1.failure_threshold ≤ cb1.failures then { cb1 with state := .opened } else cb1

/-- `CircuitBreaker.record_success`. -/
def record_success (cb : CircuitBreaker) : CircuitBreaker :=
  { cb with failures := 0, state := .closed }

/-- `CircuitBreaker.allow_request` (returns the possibly-updated breaker and
the decision). -/
def allow_request (cb : CircuitBreaker) (now : Rat) : CircuitBreaker × Bool :=
  match cb.state with
  | .closed => (cb, true)
  | .opened =>
    if cb.recovery_timeout < now - cb.last_failure_time then
      ({ cb with state := .halfOpen }, true)
    else (cb, false)
  | .halfOpen => (cb, true)

/-! ## Frontier ordering facts (about the scheduler's priority queue) -/

/-- Push each request of a list, in admission order, into an empty frontier
queue the way `schedule_request` enqueues them (`(request.priority, request)`
through `asyncio.PriorityQueue.put`, i.e. `heappush`). -/
def frontierEnqueueAll (rs : List Req) : List SEntry :=
  rs.foldl (fun q r => heappush sLt sEntryDefault q (mkSEntry r)) []

/-- Drain a frontier queue the way iterated `get_request` does (`heappop`
until empty), returning the requests in dispatch order. -/
def frontierDrain (q : List SEntry) : List Req :=
  (popAll sLt sEntryDefault q).map (fun e => e.val.2)

theorem heappush_perm {α : Type} [DecidableEq α] (lt : α → α → Bool) (d : α)
    (heap : List α) (x : α) : (heappush lt d heap x).Perm (heap ++ [x]) := by
  rw [List.perm_iff_count]
  intro a
  rw [← cnt_eq_count, ← cnt_eq_count, heappush_cnt, cnt_append]
  simp [cnt]

theorem foldl_push_inv (rs : List Req) :
    ∀ q, HeapInv sLt sEntryDefault q →
      HeapInv sLt sEntryDefault
        (rs.foldl (fun q r => heappush sLt sEntryDefault q (mkSEntry r)) q) := by
  induction rs with
  | nil =>
    intro q h
    exact h
  | cons r rs ih =>
    intro q h
    exact ih _ (heappush_inv sLt sEntryDefault sLt_order q (mkSEntry r) h)

theorem frontierEnqueueAll_inv (rs : List Req) :
    HeapInv sLt sEntryDefault (frontierEnqueueAll rs) := by
  refine foldl_push_inv rs [] ?_
  intro j hj0 hjlen
  simp at hjlen

theorem foldl_push_perm (rs : List Req) :
    ∀ q, (rs.foldl (fun q r => heappush sLt sEntryDefault q (mkSEntry r)) q).Perm
      (q ++ rs.map mkSEntry) := by
  induction rs with
  | nil =>
    intro q
    simp
  | cons r rs ih =>
    intro q
    refine (ih _).trans ?_
    have h1 := (heappush_perm sLt sEntryDefault q (mkSEntry r)).append_right
      (rs.map mkSEntry)
    refine h1.trans ?_
    simp

theorem frontierDrain_perm (rs : List Req) :
    (frontierDrain (frontierEnqueueAll rs)).Perm rs := by
  unfold frontierDrain
  refine ((popAll_perm sLt sEntryDefault (frontierEnqueueAll rs)).map _).trans ?_
  refine ((foldl_push_perm rs []).map _).trans ?_
  have hcomp : ((fun e : SEntry => e.val.2) ∘ mkSEntry) = id := funext (fun r => rfl)
  simp [hcomp]

theorem frontierDrain_sorted (rs : List Req) :
    ((frontierDrain (frontierEnqueueAll rs)).map Req.priority).Pairwise
      (fun a b => a ≤ b) := by
  have hs := popAll_sorted sLt sEntryDefault sLt_order
    (frontierEnqueueAll rs).length (frontierEnqueueAll rs) rfl
    (frontierEnqueueAll_inv rs)
  unfold frontierDrain
  rw [List.map_map]
  refine List.Pairwise.map _ ?_ hs
  intro a b hab
  rw [sLt_eq_priority] at hab
  simp only [decide_eq_false_iff_not, not_lt] at hab
  have ha := a.property
  have hb := b.property
  simp only [Function.comp]
  omega

/-! ## C6 support: case algebra, `removesuffix` / `rsplitLast` algebra -/

theorem toNat_ofNat_valid (m : Nat) (h : m < 55296) : (Char.ofNat m).toNat = m := by
  rw [Char.ofNat, dif_pos (Or.inl h)]
  simp [Char.ofNatAux, Char.toNat, UInt32.ofNat']
  rfl

theorem toLower_toLower (c : Char) : c.toLower.toLower = c.toLower := by
  by_cases h : c.toNat ≥ 65 ∧ c.toNat ≤ 90
  · have h1 : c.toLower = Char.ofNat (c.toNat + 32) := by
      rw [Char.toLower, if_pos h]
    have h2 : (Char.ofNat (c.toNat + 32)).toNat = c.toNat + 32 :=
      toNat_ofNat_valid _ (by omega)
    rw [h1, Char.toLower, h2, if_neg (by omega)]
  · have h1 : c.toLower = c := by rw [Char.toLower, if_neg h]
    rw [h1, h1]

theorem pyLower_idem (s : Str) : pyLower (pyLower s) = pyLower s := by
  simp [pyLower, List.map_map, Function.comp, toLower_toLower]

theorem usplitScheme_lower (u : Str) :
    pyLower (usplitScheme u).1 = (usplitScheme u).1 := by
  unfold usplitScheme
  repeat' split
  all_goals simp [pyLower, pyLower_idem, toLower_toLower]

theorem pyUrlsplit_scheme_lower (url : Str) :
    pyLower (pyUrlsplit url).scheme = (pyUrlsplit url).scheme := by
  have h : (pyUrlsplit url).scheme
      = (usplitScheme ((url.dropWhile fun c => c.toNat ≤ 32).filter
          fun c => !(c == '\t' || c == '\r' || c == '\n'))).1 := rfl
  rw [h]
  exact usplitScheme_lower _

theorem pyUrlparse_scheme (url : Str) :
    (pyUrlparse url).scheme = (pyUrlsplit url).scheme := by
  by_cases h : (pyUrlsplit url).scheme ∈ uses_params ∧ (';' : Char) ∈ (pyUrlsplit url).path
  · simp [pyUrlparse, h]
  · simp [pyUrlparse, h]

theorem pyUrlparse_scheme_lower (url : Str) :
    pyLower (pyUrlparse url).scheme = (pyUrlparse url).scheme := by
  rw [pyUrlparse_scheme]
  exact pyUrlsplit_scheme_lower url

theorem pyEndswith_iff (l sfx : Str) : pyEndswith l sfx = true ↔ sfx <:+ l := by
  unfold pyEndswith
  simp only [Bool.and_eq_true, decide_eq_true_eq]
  constructor
  · rintro ⟨h1, h2⟩
    refine ⟨l.take (l.length - sfx.length), ?_⟩
    conv_rhs => rw [← List.take_append_drop (l.length - sfx.length) l]
    rw [h2]
  · rintro ⟨t, ht⟩
    subst ht
    constructor
    · simp
    · have h3 : (t ++ sfx).length - sfx.length = t.length := by simp
      rw [h3, List.drop_left]

theorem removesuffix_append (pre sfx : Str) : removesuffix (pre ++ sfx) sfx = pre := by
  unfold removesuffix
  rw [if_pos]
  · have h3 : (pre ++ sfx).length - sfx.length = pre.length := by simp
    rw [h3, List.take_left]
  · exact (pyEndswith_iff _ _).mpr ⟨pre, rfl⟩

theorem removesuffix_of_not_sfx (l sfx : Str) (h : ¬ sfx <:+ l) :
    removesuffix l sfx = l := by
  unfold removesuffix
  rw [if_neg]
  intro hc
  exact h ((pyEndswith_iff _ _).mp hc)

theorem rsplitLast_isSuffix (sep : Char) (l : Str) : rsplitLast sep l <:+ l := by
  induction l with
  | nil => exact List.suffix_refl _
  | cons c cs ih =>
    rw [rsplitLast]
    split
    · exact ih.trans (List.suffix_cons c cs)
    · split
      · exact List.suffix_cons _ _
      · exact List.suffix_refl _

theorem rsplitLast_no_sep (sep : Char) (l : Str) (h : sep ∉ l) :
    rsplitLast sep l = l := by
  induction l with
  | nil => rfl
  | cons c cs ih =>
    simp only [List.mem_cons, not_or] at h
    rw [rsplitLast, if_neg h.2, if_neg (fun hc => h.1 hc.symm)]

theorem rsplitLast_append (sep : Char) (t : Str) (ht : sep ∉ t) :
    ∀ pre : Str, rsplitLast sep (pre ++ t) = rsplitLast sep pre ++ t := by
  intro pre
  induction pre with
  | nil =>
    rw [List.nil_append, rsplitLast_no_sep sep t ht]
    rfl
  | cons c cs ih =>
    by_cases hmem : sep ∈ cs ++ t
    · have hcs : sep ∈ cs := by
        rcases List.mem_append.mp hmem with h | h
        · exact h
        · exact absurd h ht
      rw [List.cons_append, rsplitLast, if_pos hmem, rsplitLast, if_pos hcs]
      exact ih
    · have hcs : sep ∉ cs := fun h => hmem (List.mem_append.mpr (Or.inl h))
      rw [List.cons_append, rsplitLast, if_neg hmem, rsplitLast, if_neg hcs]
      by_cases hc : c = sep
      · rw [if_pos hc, if_pos hc]
      · rw [if_neg hc, if_neg hc, List.cons_append]

theorem rsplitLast_removesuffix (nl sfx : Str) (h : '@' ∉ sfx) :
    rsplitLast '@' (removesuffix nl sfx) = removesuffix (rsplitLast '@' nl) sfx := by
  by_cases hend : sfx <:+ nl
  · obtain ⟨pre, hpre⟩ := hend
    subst hpre
    rw [removesuffix_append, rsplitLast_append '@' sfx h pre, removesuffix_append]
  · rw [removesuffix_of_not_sfx _ _ hend, removesuffix_of_not_sfx]
    intro hc
    exact hend (hc.trans (rsplitLast_isSuffix '@' nl))

theorem orderedInsert_eq_pyInsert (x : Str × Str) (l : List (Str × Str)) :
    List.orderedInsert qpLe x l = pyInsert x l := by
  induction l with
  | nil => rfl
  | cons y ys ih =>
    rw [List.orderedInsert, pyInsert]
    by_cases h : pairLtB y x
    · rw [if_pos h, if_neg (by simp [qpLe, h]), ih]
    · rw [if_neg h, if_pos (by simp [qpLe] at h ⊢; exact h)]

theorem insertionSort_eq_pySorted (l : List (Str × Str)) :
    List.insertionSort qpLe l = pySorted l := by
  induction l with
  | nil => rfl
  | cons x xs ih =>
    rw [List.insertionSort, pySorted, ih, orderedInsert_eq_pyInsert]

/-- Modelled from the spec: "strips userinfo" — the host:port part is
everything after the last `@` of the netloc (all of it when there is none). -/
def specStripUserinfo (netloc : Str) : Str :=
  netloc.foldl (fun acc c => if c = '@' then [] else acc ++ [c]) []

/-- Modelled from the spec: "strips the port when it equals the scheme
default" — remove the trailing `sfx` (`":80"` / `":443"`) when present. -/
def specStripPort (netloc sfx : Str) : Str :=
  if netloc.reverse.take sfx.length = sfx.reverse then
    (netloc.reverse.drop sfx.length).reverse
  else netloc

/-- Modelled from the spec: canonicalization with default options — lowercase
the scheme and the host, strip userinfo and the fragment, strip the
scheme-default port (80 for http, 443 for https), sort the query parameters
keeping blank values, and keep the path as-is. -/
def specNormalizeC6 (url : Str) : Str :=
  let p := pyUrlparse url
  let host0 := specStripUserinfo p.netloc
  let host1 :=
    if p.scheme = strL ("http") then specStripPort host0 (strL (":80"))
    else if p.scheme = strL ("https") then specStripPort host0 (strL (":443"))
    else host0
  let query := urlencode (List.insertionSort qpLe (parse_qsl p.query true))
  pyUrlunparse (pyLower p.scheme) (pyLower host1) p.path p.params query []

/-- Modelled from the spec, amended: as `specNormalizeC6` but the host's
letter case is preserved (only the scheme is lowercased). -/
def specNormalizeC6A (url : Str) : Str :=
  let p := pyUrlparse url
  let host0 := specStripUserinfo p.netloc
  let host1 :=
    if p.scheme = strL ("http") then specStripPort host0 (strL (":80"))
    else if p.scheme = strL ("https") then specStripPort host0 (strL (":443"))
    else host0
  let query := urlencode (List.insertionSort qpLe (parse_qsl p.query true))
  pyUrlunparse (pyLower p.scheme) host1 p.path p.params query []

theorem foldl_strip_userinfo (l : Str) : ∀ acc : Str,
    l.foldl (fun acc c => if c = '@' then [] else acc ++ [c]) acc
      = if '@' ∈ l then rsplitLast '@' l else acc ++ l := by
  induction l with
  | nil =>
    intro acc
    simp
  | cons c cs ih =>
    intro acc
    rw [List.foldl_cons, ih]
    by_cases hc : c = '@' <;> by_cases hcs : ('@' : Char) ∈ cs
    · simp [hc, hcs, rsplitLast]
    · simp [hc, hcs, rsplitLast]
    · simp [hc, hcs, rsplitLast]
    · have hm : ('@' : Char) ∉ c :: cs := by
        simp only [List.mem_cons, not_or]
        exact ⟨fun he => hc he.symm, hcs⟩
      rw [if_neg hcs, if_neg hm, if_neg hc, List.append_assoc, List.singleton_append]

theorem specStripUserinfo_eq (nl : Str) : specStripUserinfo nl = rsplitLast '@' nl := by
  unfold specStripUserinfo
  rw [foldl_strip_userinfo]
  split
  · rfl
  · rename_i h
    rw [rsplitLast_no_sep '@' nl h, List.nil_append]

theorem specStripPort_eq (nl sfx : Str) : specStripPort nl sfx = removesuffix nl sfx := by
  by_cases hend : sfx <:+ nl
  · obtain ⟨pre, hpre⟩ := hend
    subst hpre
    rw [removesuffix_append]
    unfold specStripPort
    rw [if_pos]
    · have h1 : (sfx.reverse ++ pre.reverse).drop sfx.length = pre.reverse := by
        rw [← List.length_reverse sfx]
        exact List.drop_left _ _
      rw [List.reverse_append, h1, List.reverse_reverse]
    · rw [List.reverse_append, ← List.length_reverse sfx, List.take_left]
  · rw [removesuffix_of_not_sfx _ _ hend]
    unfold specStripPort
    rw [if_neg]
    intro hc
    apply hend
    have hp : sfx.reverse <+: nl.reverse := by
      refine ⟨nl.reverse.drop sfx.length, ?_⟩
      conv_rhs => rw [← List.take_append_drop sfx.length nl.reverse]
      rw [hc]
    exact List.reverse_prefix.mp hp

theorem normalizeUrlD_eq_specC6A (url : Str) : normalizeUrlD url = specNormalizeC6A url := by
  show pyUrlunparse (pyUrlparse url).scheme
      (rsplitLast '@'
        (if (pyUrlparse url).scheme = strL ("http") then
          removesuffix (pyUrlparse url).netloc (strL (":80"))
        else if (pyUrlparse url).scheme = strL ("https") then
          removesuffix (pyUrlparse url).netloc (strL (":443"))
        else (pyUrlparse url).netloc))
      (pyUrlparse url).path (pyUrlparse url).params
      (urlencode (pySorted (parse_qsl (pyUrlparse url).query true))) []
    = pyUrlunparse (pyLower (pyUrlparse url).scheme)
      (if (pyUrlparse url).scheme = strL ("http") then
        specStripPort (specStripUserinfo (pyUrlparse url).netloc) (strL (":80"))
      else if (pyUrlparse url).scheme = strL ("https") then
        specStripPort (specStripUserinfo (pyUrlparse url).netloc) (strL (":443"))
      else specStripUserinfo (pyUrlparse url).netloc)
      (pyUrlparse url).path (pyUrlparse url).params
      (urlencode (List.insertionSort qpLe (parse_qsl (pyUrlparse url).query true))) []
  rw [pyUrlparse_scheme_lower, specStripUserinfo_eq, insertionSort_eq_pySorted,
      specStripPort_eq, specStripPort_eq]
  by_cases h1 : (pyUrlparse url).scheme = strL ("http")
  · rw [if_pos h1, if_pos h1, rsplitLast_removesuffix _ _ (by decide)]
  · by_cases h2 : (pyUrlparse url).scheme = strL ("https")
    · rw [if_neg h1, if_neg h1, if_pos h2, if_pos h2,
          rsplitLast_removesuffix _ _ (by decide)]
    · rw [if_neg h1, if_neg h1, if_neg h2, if_neg h2]

/-! ## C7 support: congruence of `normalize_url` under default options -/

theorem normalizeUrlD_congr (u1 u2 : Str)
    (hs : (pyUrlparse u1).scheme = (pyUrlparse u2).scheme)
    (hn : (if (pyUrlparse u1).scheme = strL ("http") then
            removesuffix (pyUrlparse u1).netloc (strL (":80"))
          else if (pyUrlparse u1).scheme = strL ("https") then
            removesuffix (pyUrlparse u1).netloc (strL (":443"))
          else (pyUrlparse u1).netloc)
        = (if (pyUrlparse u2).scheme = strL ("http") then
            removesuffix (pyUrlparse u2).netloc (strL (":80"))
          else if (pyUrlparse u2).scheme = strL ("https") then
            removesuffix (pyUrlparse u2).netloc (strL (":443"))
          else (pyUrlparse u2).netloc))
    (hp : (pyUrlparse u1).path = (pyUrlparse u2).path)
    (hpar : (pyUrlparse u1).params = (pyUrlparse u2).params)
    (hq : (parse_qsl (pyUrlparse u1).query true).Perm
      (parse_qsl (pyUrlparse u2).query true)) :
    normalizeUrlD u1 = normalizeUrlD u2 := by
  show pyUrlunparse (pyUrlparse u1).scheme
      (rsplitLast '@'
        (if (pyUrlparse u1).scheme = strL ("http") then
          removesuffix (pyUrlparse u1).netloc (strL (":80"))
        else if (pyUrlparse u1).scheme = strL ("https") then
          removesuffix (pyUrlparse u1).netloc (strL (":443"))
        else (pyUrlparse u1).netloc))
      (pyUrlparse u1).path (pyUrlparse u1).params
      (urlencode (pySorted (parse_qsl (pyUrlparse u1).query true))) []
    = pyUrlunparse (pyUrlparse u2).scheme
      (rsplitLast '@'
        (if (pyUrlparse u2).scheme = strL ("http") then
          removesuffix (pyUrlparse u2).netloc (strL (":80"))
        else if (pyUrlparse u2).scheme = strL ("https") then
          removesuffix (pyUrlparse u2).netloc (strL (":443"))
        else (pyUrlparse u2).netloc))
      (pyUrlparse u2).path (pyUrlparse u2).params
      (urlencode (pySorted (parse_qsl (pyUrlparse u2).query true))) []
  rw [hn, hs, hp, hpar, pySorted_eq_of_perm _ _ hq]

theorem fingerprintD_congr (r1 r2 : Req) (hm : r1.method = r2.method)
    (hb : r1.body = r2.body) (hu : normalizeUrlD r1.url = normalizeUrlD r2.url) :
    fingerprintD r1 = fingerprintD r2 := by
  unfold fingerprintD fingerprint
  have hnu : normalize_url r1.url false false true false true
      = normalize_url r2.url false false true false true := hu
  rw [hm, hb, hnu]

/-! ## C1/C9 support: outcomes of `schedule_request`, effect of completion -/

theorem schedule_enqueue_not_filtered (st : SchedState) (r : Req) (tE tD : Rat) :
    (schedule_enqueue st r tE tD).2 ≠ SchedOutcome.filtered := by
  simp only [schedule_enqueue]
  repeat' split
  all_goals simp

theorem schedule_request_filtered_iff (st : SchedState) (r : Req) (tE tD : Rat) :
    (schedule_request st r tE tD).2 = SchedOutcome.filtered ↔
      (¬(st.max_requests ≠ 0 ∧ st.max_requests ≤ st.total_scheduled)
        ∧ r.url ∈ st.seen_urls ∧ r.dont_filter = false) := by
  unfold schedule_request
  by_cases hcap : st.max_requests ≠ 0 ∧ st.max_requests ≤ st.total_scheduled
  · rw [if_pos hcap]
    simp [hcap]
  · rw [if_neg hcap]
    by_cases hdup : r.url ∈ st.seen_urls ∧ r.dont_filter = false
    · rw [if_pos hdup]
      simp [hcap, hdup]
    · rw [if_neg hdup]
      simp only [schedule_enqueue_not_filtered st r tE tD, false_iff]
      intro hc
      exact hdup ⟨hc.2.1, hc.2.2⟩

theorem schedule_request_filtered_state (st : SchedState) (r : Req) (tE tD : Rat)
    (h : (schedule_request st r tE tD).2 = SchedOutcome.filtered) :
    (schedule_request st r tE tD).1
      = {st with total_filtered := st.total_filtered + 1} := by
  have hiff := (schedule_request_filtered_iff st r tE tD).mp h
  unfold schedule_request
  rw [if_neg hiff.1, if_pos ⟨hiff.2.1, hiff.2.2⟩]

/-- The spec's worked example for duplicate filtering: admit the two
query-permuted URLs in order and report the outcomes and counters. -/
def c1Scenario : Option (SchedOutcome × SchedOutcome × Nat × Nat) :=
  match mkRequestD (strL ("http://example.com/a?b=1&a=2")),
        mkRequestD (strL ("http://example.com/a?a=2&b=1")) with
  | .ok r1, .ok r2 =>
    let s1 := schedule_request mkSchedulerD r1 0 0
    let s2 := schedule_request s1.1 r2 0 0
    some (s1.2, s2.2, s2.1.total_scheduled, s2.1.total_filtered)
  | _, _ => none

/-! ## C9 support: the effect of `request_completed` -/

theorem lookupA_setA_self {β : Type} (m : List (Str × β)) (k : Str) (v : β) :
    lookupA (setA m k v) k = some v := by
  induction m with
  | nil => simp [setA, lookupA]
  | cons p rest ih =>
    by_cases h : p.1 = k
    · simp [setA, lookupA, h]
    · simp [setA, lookupA, h, ih]

theorem request_completed_effect (st : SchedState) (r : Req) (ds : DomainStat)
    (v : Nat) (hds : lookupA st.domain_stats (getDomain r.url) = some ds)
    (hsem : lookupA st.domain_semaphores (getDomain r.url) = some v) :
    ∃ st2, request_completed st r = some st2
      ∧ lookupA st2.domain_stats (getDomain r.url)
          = some {ds with active_requests := ds.active_requests - 1}
      ∧ st2.current_requests = st.current_requests - 1
      ∧ lookupA st2.domain_semaphores (getDomain r.url) = some (v + 1)
      ∧ st2.request_queue = st.request_queue
      ∧ st2.seen_urls = st.seen_urls
      ∧ st2.total_scheduled = st.total_scheduled
      ∧ st2.total_filtered = st.total_filtered := by
  refine ⟨{st with
      domain_stats := setA st.domain_stats (getDomain r.url)
        {ds with active_requests := ds.active_requests - 1},
      current_requests := st.current_requests - 1,
      domain_semaphores := setA st.domain_semaphores (getDomain r.url) (v + 1)},
    ?_, ?_, ?_, ?_, rfl, rfl, rfl, rfl⟩ <;>
    simp only [request_completed, hds, hsem, lookupA_setA_self]

/-- Admit one request, then call `request_completed` twice; report the
domain's `active_requests` and semaphore value. -/
def c9Scenario : Option (Int × Nat) :=
  let r := Req.mk (strL ("http://example.com/")) (strL ("GET")) none false 0 3 0 none false
  let s1 := (schedule_request mkSchedulerD r 0 0).1
  match request_completed s1 r with
  | none => none
  | some s2 =>
    match request_completed s2 r with
    | none => none
    | some s3 =>
      match lookupA s3.domain_stats (getDomain r.url),
            lookupA s3.domain_semaphores (getDomain r.url) with
      | some ds, some v => some (ds.active_requests, v)
      | _, _ => none

/-! ## C8 support: counters across retry chains -/

theorem update_stats_total_requests (s : DlStats) (e : Rat) :
    (update_stats s e).total_requests = s.total_requests := by
  simp only [update_stats]
  split <;> rfl

theorem update_stats_total_retries (s : DlStats) (e : Rat) :
    (update_stats s e).total_retries = s.total_retries := by
  simp only [update_stats]
  split <;> rfl

theorem fetch_retry_http_step (st : DlState) (r : Req) (status : Nat)
    (cfg : Nat × Nat) (elapsed : Rat) (hcfg : retryCfg status = some cfg)
    (hpos : 0 < r.retries) :
    fetch_retry st r (.http status) elapsed
      = ((fetch_retry st r (.http status) elapsed).1, FRResult.nil,
         some {r with
           delay := st.retry_delay * ratPowInt (ratOfNat cfg.2) ((cfg.1 : Int) - r.retries),
           retries := r.retries - 1, priority := r.priority + 10})
    ∧ (fetch_retry st r (.http status) elapsed).1.stats.total_retries
        = st.stats.total_retries + 1
    ∧ (fetch_retry st r (.http status) elapsed).1.stats.total_requests
        = st.stats.total_requests + (if r.url ∈ st.retry_requests then 0 else 1)
    ∧ (fetch_retry st r (.http status) elapsed).1.retry_requests
        = (if r.url ∈ st.retry_requests then st.retry_requests
           else st.retry_requests ++ [r.url])
    ∧ (fetch_retry st r (.http status) elapsed).1.retry_delay = st.retry_delay := by
  by_cases hmem : r.url ∈ st.retry_requests <;>
    refine ⟨?_, ?_, ?_, ?_, ?_⟩ <;>
    simp [fetch_retry, pyFetch, retry_request, hcfg, hmem, hpos,
      update_stats_total_requests, update_stats_total_retries]

theorem runRetries_seen (status : Nat) (cfg : Nat × Nat)
    (hcfg : retryCfg status = some cfg) :
    ∀ (n : Nat) (st : DlState) (r : Req), r.url ∈ st.retry_requests →
      (n : Int) ≤ r.retries →
      (runRetries st r status n).1.stats.total_retries = st.stats.total_retries + n
      ∧ (runRetries st r status n).1.stats.total_requests = st.stats.total_requests := by
  intro n
  induction n with
  | zero =>
    intro st r _ _
    exact ⟨rfl, rfl⟩
  | succ m ih =>
    intro st r hmem hb
    have hpos : (0 : Int) < r.retries := by
      have hb2 : ((m : Int) + 1) ≤ r.retries := by exact_mod_cast hb
      omega
    obtain ⟨heq, hret, hreq, hset, hdel⟩ :=
      fetch_retry_http_step st r status cfg 0 hcfg hpos
    rcases hfr : fetch_retry st r (.http status) 0 with ⟨st1, fr, or1⟩
    rw [hfr] at heq hret hreq hset hdel
    simp only [Prod.mk.injEq] at heq
    obtain ⟨-, hfr2, hor⟩ := heq
    subst hfr2
    subst hor
    simp only [] at hret hreq hset hdel
    have hrun : runRetries st r status (m + 1)
        = runRetries st1
          {r with
            delay := st.retry_delay * ratPowInt (ratOfNat cfg.2) ((cfg.1 : Int) - r.retries),
            retries := r.retries - 1,
            priority := r.priority + 10}
          status m := by
      simp only [runRetries, hfr]
    have h2 := ih st1
      {r with
        delay := st.retry_delay * ratPowInt (ratOfNat cfg.2) ((cfg.1 : Int) - r.retries),
        retries := r.retries - 1,
        priority := r.priority + 10}
      (by
        simp only [hset, if_pos hmem]
        exact hmem)
      (by
        have hb2 : ((m : Int) + 1) ≤ r.retries := by exact_mod_cast hb
        show (m : Int) ≤ r.retries - 1
        omega)
    constructor
    · rw [hrun, h2.1, hret]
      omega
    · rw [hrun, h2.2, hreq, if_pos hmem]
      omega

theorem runRetries_fresh (st : DlState) (r : Req) (status : Nat) (cfg : Nat × Nat)
    (n : Nat) (hcfg : retryCfg status = some cfg)
    (hnew : r.url ∉ st.retry_requests) (hb : (n : Int) ≤ r.retries) (hn : 0 < n) :
    (runRetries st r status n).1.stats.total_requests = st.stats.total_requests + 1
    ∧ (runRetries st r status n).1.stats.total_retries = st.stats.total_retries + n := by
  obtain ⟨m, rfl⟩ : ∃ m, n = m + 1 := ⟨n - 1, by omega⟩
  have hpos : (0 : Int) < r.retries := by
    have hb2 : ((m : Int) + 1) ≤ r.retries := by exact_mod_cast hb
    omega
  obtain ⟨heq, hret, hreq, hset, hdel⟩ :=
    fetch_retry_http_step st r status cfg 0 hcfg hpos
  rcases hfr : fetch_retry st r (.http status) 0 with ⟨st1, fr, or1⟩
  rw [hfr] at heq hret hreq hset hdel
  simp only [Prod.mk.injEq] at heq
  obtain ⟨-, hfr2, hor⟩ := heq
  subst hfr2
  subst hor
  simp only [] at hret hreq hset hdel
  have hrun : runRetries st r status (m + 1)
      = runRetries st1
        {r with
          delay := st.retry_delay * ratPowInt (ratOfNat cfg.2) ((cfg.1 : Int) - r.retries),
          retries := r.retries - 1,
          priority := r.priority + 10}
        status m := by
    simp only [runRetries, hfr]
  have h2 := runRetries_seen status cfg hcfg m st1
    {r with
      delay := st.retry_delay * ratPowInt (ratOfNat cfg.2) ((cfg.1 : Int) - r.retries),
      retries := r.retries - 1,
      priority := r.priority + 10}
    (by
      simp only [hset, if_neg hnew]
      exact List.mem_append_right _ (List.mem_singleton_self _))
    (by
      have hb2 : ((m : Int) + 1) ≤ r.retries := by exact_mod_cast hb
      show (m : Int) ≤ r.retries - 1
      omega)
  constructor
  · rw [hrun, h2.2, hreq, if_neg hnew]
  · rw [hrun, h2.1, hret]
    omega

theorem ratPowInt_eq_zpow (b : Rat) (e : Int) : ratPowInt b e = b ^ e := by
  cases e with
  | ofNat n => simp [ratPowInt, zpow_natCast]
  | negSucc n => simp [ratPowInt, zpow_negSucc, one_div]

theorem ratOfNat_eq_cast (n : Nat) : ratOfNat n = (n : Rat) := by
  rw [ratOfNat, Rat.mkRat_eq_div]
  push_cast
  exact div_one _

/-! ## The claims -/

/-- C1 (corrected): the scheduler filters duplicates by raw URL, not by
fingerprint: admission returns `filtered` (incrementing `total_filtered` and
leaving everything else, in particular `total_scheduled`, unchanged) exactly
when the candidate's URL is already in `seen_urls`, the request-cap branch
did not fire, and `dont_filter` is false; the spec's worked example (the two
query-permuted URLs admitted through `Request`s built with normalization)
ends with outcomes `scheduled`, `filtered` and `total_scheduled = 1`,
`total_filtered = 1`. -/
theorem C1_dedup_by_url (st : SchedState) (r : Req) (tE tD : Rat) :
    ((schedule_request st r tE tD).2 = SchedOutcome.filtered ↔
      (¬(st.max_requests ≠ 0 ∧ st.max_requests ≤ st.total_scheduled)
        ∧ r.url ∈ st.seen_urls ∧ r.dont_filter = false))
    ∧ ((schedule_request st r tE tD).2 = SchedOutcome.filtered →
        (schedule_request st r tE tD).1
          = {st with total_filtered := st.total_filtered + 1})
    ∧ c1Scenario = some (.scheduled, .filtered, 1, 1) :=
  ⟨schedule_request_filtered_iff st r tE tD,
   schedule_request_filtered_state st r tE tD, by decide⟩

/-- C1 counterexample to filtering by fingerprint: a GET and a POST for the
same URL have different fingerprints (the method is part of the fingerprint),
yet the scheduler still filters the second one, because it deduplicates on
the URL alone. -/
theorem C1_dedup_counterexample :
    fingerprintD (Req.mk (strL ("http://example.com/")) (strL ("GET"))
        none false 0 3 0 none false)
      ≠ fingerprintD (Req.mk (strL ("http://example.com/")) (strL ("POST"))
        none false 0 3 0 none false)
    ∧ (schedule_request
        (schedule_request mkSchedulerD
          (Req.mk (strL ("http://example.com/")) (strL ("GET"))
            none false 0 3 0 none false) 0 0).1
        (Req.mk (strL ("http://example.com/")) (strL ("POST"))
          none false 0 3 0 none false) 0 0).2
      = SchedOutcome.filtered := by decide

/-- C2 (corrected): the frontier dispenses requests in non-decreasing
priority order — every admitted multiset comes back out as a permutation
whose priorities are sorted — and on the spec's example priorities
`[5, 1, 3, 1]` the dequeue order is `[1, 1, 3, 5]`; but among requests of
equal priority the dispense order is the binary-heap order, not FIFO
insertion order. -/
theorem C2_priority_order (rs : List Req) :
    (frontierDrain (frontierEnqueueAll rs)).Perm rs
    ∧ ((frontierDrain (frontierEnqueueAll rs)).map Req.priority).Pairwise
        (fun a b => a ≤ b)
    ∧ (frontierDrain (frontierEnqueueAll
        [Req.mk (strL ("http://e/5")) (strL ("GET")) none false 5 3 0 none false,
         Req.mk (strL ("http://e/1")) (strL ("GET")) none false 1 3 0 none false,
         Req.mk (strL ("http://e/3")) (strL ("GET")) none false 3 3 0 none false,
         Req.mk (strL ("http://e/1b")) (strL ("GET")) none false 1 3 0 none false])).map
        Req.priority
      = [1, 1, 3, 5] :=
  ⟨frontierDrain_perm rs, frontierDrain_sorted rs, by decide⟩

/-- The three requests of the FIFO tie-break counterexample: A then B at
priority 1, then X at priority 0. -/
def c2A : Req := Req.mk (strL ("http://e/a")) (strL ("GET")) none false 1 3 0 none false

/-- Second request of the FIFO counterexample (same priority as `c2A`). -/
def c2B : Req := Req.mk (strL ("http://e/b")) (strL ("GET")) none false 1 3 0 none false

/-- Third request of the FIFO counterexample (lower priority value). -/
def c2X : Req := Req.mk (strL ("http://e/x")) (strL ("GET")) none false 0 3 0 none false

/-- C2 counterexample to the FIFO tie-break: admit A then B (both priority 1)
then X (priority 0); the heap dispenses X, then B, then A — B overtakes A,
so insertion order does not break the tie. -/
theorem C2_fifo_counterexample :
    frontierDrain (frontierEnqueueAll [c2A, c2B, c2X]) = [c2X, c2B, c2A]
    ∧ frontierDrain (frontierEnqueueAll [c2A, c2B, c2X]) ≠ [c2X, c2A, c2B] := by
  decide

/-- C3 (code_bug): when an HTTP response carries a retry-table status code
and the retry budget is exhausted (`retries ≤ 0`), `fetch_retry` returns
`None` — not the response — because the source's `return None` sits outside
the `if request.retries > 0` block; the docstring and the spec both promise
the response as-is. -/
theorem C3_exhausted_returns_nil (st : DlState) (r : Req) (status : Nat)
    (cfg : Nat × Nat) (elapsed : Rat) (hcfg : retryCfg status = some cfg)
    (hz : r.retries ≤ 0) :
    (fetch_retry st r (.http status) elapsed).2.1 = FRResult.nil
    ∧ (fetch_retry st r (.http status) elapsed).2.2 = none := by
  have hz2 : ¬ 0 < r.retries := by omega
  constructor <;> simp [fetch_retry, pyFetch, hcfg, hz2]

/-- C3 at a concrete input: a 403 response with no retries left yields `None`
and queues nothing. -/
theorem C3_exhausted_witness :
    (fetch_retry mkDownloaderD
        (Req.mk (strL ("http://example.com/")) (strL ("GET")) none false 0 0 0 none false)
        (.http 403) 0).2.1 = FRResult.nil
    ∧ (fetch_retry mkDownloaderD
        (Req.mk (strL ("http://example.com/")) (strL ("GET")) none false 0 0 0 none false)
        (.http 403) 0).2.2 = none :=
  C3_exhausted_returns_nil mkDownloaderD _ 403 (5, 2) 0 (by decide) (by decide)

/-- C4 (corrected): the backoff delay of the request re-queued for a
retry-table status equals `retry_delay × backoff_factor ^ (max_retries −
retries_remaining)` with `max_retries` the table row's budget — the exponent
is the table budget minus the remaining budget, which equals the retry
ordinal only for a request whose initial budget equals the table's. -/
theorem C4_backoff_formula (st : DlState) (r : Req) (status : Nat)
    (cfg : Nat × Nat) (elapsed : Rat) (hcfg : retryCfg status = some cfg)
    (hpos : 0 < r.retries) :
    ∃ st2 r2, fetch_retry st r (.http status) elapsed = (st2, FRResult.nil, some r2)
      ∧ r2.delay = st.retry_delay * (cfg.2 : Rat) ^ ((cfg.1 : Int) - r.retries) := by
  obtain ⟨heq, -, -, -, -⟩ := fetch_retry_http_step st r status cfg elapsed hcfg hpos
  refine ⟨_, _, heq, ?_⟩
  show st.retry_delay * ratPowInt (ratOfNat cfg.2) ((cfg.1 : Int) - r.retries)
      = st.retry_delay * (cfg.2 : Rat) ^ ((cfg.1 : Int) - r.retries)
  rw [ratOfNat_eq_cast, ratPowInt_eq_zpow]

/-- C4 at a concrete input: a 403 with 5 retries remaining (a fresh default
request) gets backoff `1 × 2 ^ 0 = 1`. -/
theorem C4_backoff_witness :
    ∃ st2 r2, fetch_retry mkDownloaderD
        (Req.mk (strL ("http://example.com/")) (strL ("GET")) none false 0 5 0 none false)
        (.http 403) 0 = (st2, FRResult.nil, some r2)
      ∧ r2.delay = mkDownloaderD.retry_delay * ((5, 2).2 : Rat)
          ^ (((5, 2).1 : Int) - (Req.mk (strL ("http://example.com/")) (strL ("GET"))
              none false 0 5 0 none false).retries) :=
  C4_backoff_formula mkDownloaderD _ 403 (5, 2) 0 (by decide) (by decide)

/-- C4 counterexample to the retry-ordinal formula: a request with an initial
budget of 1 being retried for 403 (table row `max_retries = 5`, factor 2) is
on its first retry (ordinal `n = 0`), so the spec's formula gives
`1 × 2 ^ 0 = 1`; the code sets `2 ^ (5 − 1) = 16`. -/
theorem C4_backoff_counterexample :
    ((fetch_retry mkDownloaderD
        (Req.mk (strL ("http://example.com/")) (strL ("GET")) none false 0 1 0 none false)
        (.http 403) 0).2.2.map Req.delay) = some 16
    ∧ mkDownloaderD.retry_delay * ratPowInt (ratOfNat 2) 0 ≠ 16 := by
  constructor
  · obtain ⟨heq, -, -, -, -⟩ := fetch_retry_http_step mkDownloaderD
      (Req.mk (strL ("http://example.com/")) (strL ("GET")) none false 0 1 0 none false)
      403 (5, 2) 0 (by decide) (by decide)
    rw [heq]
    refine congrArg some ?_
    show mkDownloaderD.retry_delay * ratPowInt (ratOfNat 2) (((5, 2).1 : Int) - 1) = 16
    rw [ratOfNat_eq_cast, ratPowInt_eq_zpow, show mkDownloaderD.retry_delay = 1 from rfl]
    norm_num
  · rw [ratOfNat_eq_cast, ratPowInt_eq_zpow, show mkDownloaderD.retry_delay = 1 from rfl]
    norm_num

/-- C5 (confirmed): an open breaker rejects every request until more than
`recovery_timeout` seconds have passed since the last failure, then moves to
half-open and admits the trial; in half-open the trial is admitted, a success
closes the breaker and resets the failure count to 0, and a failure (the
count being at least the threshold, as it always is when the breaker ever
opened) re-opens it. -/
theorem C5_circuit_breaker (cb : CircuitBreaker) (now : Rat) :
    (cb.state = CBState.opened →
      ¬(cb.recovery_timeout < now - cb.last_failure_time) →
      allow_request cb now = (cb, false))
    ∧ (cb.state = CBState.opened →
        cb.recovery_timeout < now - cb.last_failure_time →
        allow_request cb now = ({cb with state := CBState.halfOpen}, true))
    ∧ (cb.state = CBState.halfOpen → (allow_request cb now).2 = true)
    ∧ (record_success cb).state = CBState.closed
    ∧ (record_success cb).failures = 0
    ∧ (cb.state = CBState.halfOpen → cb.failure_threshold ≤ cb.failures →
        (record_failure cb now).state = CBState.opened) := by
  refine ⟨?_, ?_, ?_, rfl, rfl, ?_⟩
  · intro hs hlt
    simp [allow_request, hs, hlt]
  · intro hs hlt
    simp [allow_request, hs, hlt]
  · intro hs
    simp [allow_request, hs]
  · intro hs hth
    have hth2 : cb.failure_threshold ≤ cb.failures + 1 := by omega
    simp [record_failure, hth2]

/-- C6 (corrected): canonicalization with default options equals the spec's
pipeline amended on one point — the scheme is lowercased (by parsing),
userinfo, the fragment and the scheme-default port are stripped, query
parameters are sorted with blank values kept, the path is kept — but the
host's letter case is preserved, not lowercased. -/
theorem C6_canonicalization (url : Str) : normalizeUrlD url = specNormalizeC6A url :=
  normalizeUrlD_eq_specC6A url

/-- C6 counterexample to host lowercasing: `normalize_url` keeps the host's
case, diverging from the spec's model on `http://Example.com/`. -/
theorem C6_host_case_counterexample :
    specNormalizeC6 (strL ("http://Example.com/")) = strL ("http://example.com/")
    ∧ normalizeUrlD (strL ("http://Example.com/")) = strL ("http://Example.com/")
    ∧ normalizeUrlD (strL ("http://Example.com/"))
        ≠ specNormalizeC6 (strL ("http://Example.com/")) := by decide

/-- C7 (confirmed): two requests with the same method and body whose URLs
parse to the same scheme, path and params, whose netlocs agree once an
explicit scheme-default port is removed, and whose query strings hold the
same parameters up to order, have the same fingerprint and compare equal
under `Request.__eq__`. -/
theorem C7_fingerprint_stability (r1 r2 : Req)
    (hm : r1.method = r2.method) (hb : r1.body = r2.body)
    (hs : (pyUrlparse r1.url).scheme = (pyUrlparse r2.url).scheme)
    (hn : (if (pyUrlparse r1.url).scheme = strL ("http") then
            removesuffix (pyUrlparse r1.url).netloc (strL (":80"))
          else if (pyUrlparse r1.url).scheme = strL ("https") then
            removesuffix (pyUrlparse r1.url).netloc (strL (":443"))
          else (pyUrlparse r1.url).netloc)
        = (if (pyUrlparse r2.url).scheme = strL ("http") then
            removesuffix (pyUrlparse r2.url).netloc (strL (":80"))
          else if (pyUrlparse r2.url).scheme = strL ("https") then
            removesuffix (pyUrlparse r2.url).netloc (strL (":443"))
          else (pyUrlparse r2.url).netloc))
    (hp : (pyUrlparse r1.url).path = (pyUrlparse r2.url).path)
    (hpar : (pyUrlparse r1.url).params = (pyUrlparse r2.url).params)
    (hq : (parse_qsl (pyUrlparse r1.url).query true).Perm
      (parse_qsl (pyUrlparse r2.url).query true)) :
    fingerprintD r1 = fingerprintD r2 ∧ reqEqB r1 r2 = true := by
  have hfp : fingerprintD r1 = fingerprintD r2 :=
    fingerprintD_congr r1 r2 hm hb
      (normalizeUrlD_congr r1.url r2.url hs hn hp hpar hq)
  exact ⟨hfp, by simp [reqEqB, hfp]⟩

/-- C7 at a concrete input: reordered query parameters and an explicit port
80 on an http URL leave the fingerprint unchanged and make the two requests
equal. -/
theorem C7_fingerprint_witness :
    fingerprintD (Req.mk (strL ("http://example.com/a?b=1&a=2")) (strL ("GET"))
        none false 0 3 0 none false)
      = fingerprintD (Req.mk (strL ("http://example.com:80/a?a=2&b=1")) (strL ("GET"))
        none false 0 3 0 none false)
    ∧ reqEqB
        (Req.mk (strL ("http://example.com/a?b=1&a=2")) (strL ("GET"))
          none false 0 3 0 none false)
        (Req.mk (strL ("http://example.com:80/a?a=2&b=1")) (strL ("GET"))
          none false 0 3 0 none false) = true :=
  C7_fingerprint_stability _ _ rfl rfl (by decide) (by decide) (by decide)
    (by decide) (by decide)

/-- C8 (confirmed): across a chain of `n ≥ 1` attempts for one request that
keeps drawing a retry-table status (each attempt re-dispatching the mutated
request of the previous retry), `total_requests` grows by exactly one — the
URL joins the retry set on the first retry and is never counted again — and
`total_retries` grows by exactly `n`. -/
theorem C8_counter_discipline (st : DlState) (r : Req) (status n : Nat)
    (cfg : Nat × Nat) (hcfg : retryCfg status = some cfg)
    (hnew : r.url ∉ st.retry_requests) (hb : (n : Int) ≤ r.retries)
    (hn : 0 < n) :
    (runRetries st r status n).1.stats.total_requests
        = st.stats.total_requests + 1
    ∧ (runRetries st r status n).1.stats.total_retries
        = st.stats.total_retries + n :=
  runRetries_fresh st r status cfg n hcfg hnew hb hn

/-- C8 at a concrete input: two 503 attempts on a fresh request with budget 3
count one request and two retries. -/
theorem C8_counter_witness :
    (runRetries mkDownloaderD
        (Req.mk (strL ("http://example.com/")) (strL ("GET")) none false 0 3 0 none false)
        503 2).1.stats.total_requests
      = mkDownloaderD.stats.total_requests + 1
    ∧ (runRetries mkDownloaderD
        (Req.mk (strL ("http://example.com/")) (strL ("GET")) none false 0 3 0 none false)
        503 2).1.stats.total_retries
      = mkDownloaderD.stats.total_retries + 2 :=
  C8_counter_discipline mkDownloaderD _ 503 2 (3, 2) (by decide) (by decide)
    (by decide) (by decide)

/-- C9 (corrected): `request_completed` decrements the domain's in-flight
count by exactly one, decrements `current_requests`, and releases the
per-host semaphore — but there is no idempotent guard: after one admission,
calling it twice drives `active_requests` to −1, below its pre-admission
value 0, and the semaphore to 11, beyond its capacity of 10. -/
theorem C9_complete_no_guard (st : SchedState) (r : Req) (ds : DomainStat)
    (v : Nat) (hds : lookupA st.domain_stats (getDomain r.url) = some ds)
    (hsem : lookupA st.domain_semaphores (getDomain r.url) = some v) :
    (∃ st2, request_completed st r = some st2
      ∧ lookupA st2.domain_stats (getDomain r.url)
          = some {ds with active_requests := ds.active_requests - 1}
      ∧ st2.current_requests = st.current_requests - 1
      ∧ lookupA st2.domain_semaphores (getDomain r.url) = some (v + 1))
    ∧ c9Scenario = some (-1, 11)
    ∧ mkSchedulerD.max_domain_concurrent = 10 := by
  obtain ⟨st2, h1, h2, h3, h4, -, -, -, -⟩ := request_completed_effect st r ds v hds hsem
  exact ⟨⟨st2, h1, h2, h3, h4⟩, by decide, rfl⟩

/-- C9 at a concrete input: completing a request for a domain with one
in-flight request and semaphore value 3 yields in-flight 0 and semaphore 4. -/
theorem C9_complete_witness :
    (∃ st2, request_completed
        {mkSchedulerD with
          domain_stats := [(strL ("example.com"),
            DomainStat.mk 0 1 1 0 0 0)],
          domain_semaphores := [(strL ("example.com"), 3)]}
        (Req.mk (strL ("http://example.com/x")) (strL ("GET")) none false 0 3 0 none false)
        = some st2
      ∧ lookupA st2.domain_stats
          (getDomain (Req.mk (strL ("http://example.com/x")) (strL ("GET"))
            none false 0 3 0 none false).url)
          = some {DomainStat.mk 0 1 1 0 0 0 with active_requests := (1 : Int) - 1}
      ∧ st2.current_requests
          = ({mkSchedulerD with
              domain_stats := [(strL ("example.com"),
                DomainStat.mk 0 1 1 0 0 0)],
              domain_semaphores := [(strL ("example.com"), 3)]} : SchedState).current_requests - 1
      ∧ lookupA st2.domain_semaphores
          (getDomain (Req.mk (strL ("http://example.com/x")) (strL ("GET"))
            none false 0 3 0 none false).url)
          = some (3 + 1))
    ∧ c9Scenario = some (-1, 11)
    ∧ mkSchedulerD.max_domain_concurrent = 10 :=
  C9_complete_no_guard _ _ (DomainStat.mk 0 1 1 0 0 0) 3 (by decide) (by decide)

/-- C9 counterexample to the idempotent guard: after admitting one request
(in-flight 1, semaphore 9 of 10), two `request_completed` calls for the same
request leave in-flight at −1 — below the pre-admission value 0 — and the
semaphore at 11 — beyond its capacity 10: the second call is not a no-op. -/
theorem C9_double_release_counterexample :
    c9Scenario = some (-1, 11)
    ∧ mkSchedulerD.max_domain_concurrent = 10
    ∧ (-1 : Int) < 0 := by decide

/-- C10 (confirmed): with `validate=True`, `Request.__init__` raises
`InvalidRequestMethod` for a method whose uppercase form is not one of the
seven allowed verbs (checked before the URL, so even a bad URL reports the
method error), `TypeError` for a non-`str` URL, and `ValueError` for a `str`
URL whose parse lacks a scheme or a netloc; otherwise, and always when
`validate=False`, it builds the object (URL normalized when `normalize` is
set, method uppercased) and raises nothing. -/
theorem C10_request_validation (url : Str) (method : Str) (body : Option Str)
    (df : Bool) (pr rt : Int) (dl : Rat) (tmo : Option Rat) (cb norm : Bool) :
    (pyUpper method ∉ METHODS →
      mkRequest url method body df pr rt dl tmo cb true norm
        = .error .invalidRequestMethod)
    ∧ (validateMethod method = .ok () → requestInit .nonstr method true
        = .error .typeError)
    ∧ (pyUpper method ∈ METHODS →
        ((pyUrlparse url).scheme = [] ∨ (pyUrlparse url).netloc = []) →
        mkRequest url method body df pr rt dl tmo cb true norm
          = .error .valueError)
    ∧ (pyUpper method ∈ METHODS →
        (pyUrlparse url).scheme ≠ [] → (pyUrlparse url).netloc ≠ [] →
        mkRequest url method body df pr rt dl tmo cb true norm
          = .ok (Req.mk (if norm then normalizeUrlD url else url)
              (pyUpper method) body df pr rt dl tmo cb))
    ∧ mkRequest url method body df pr rt dl tmo cb false norm
        = .ok (Req.mk (if norm then normalizeUrlD url else url)
            (pyUpper method) body df pr rt dl tmo cb) := by
  refine ⟨?_, ?_, ?_, ?_, ?_⟩
  · intro hbad
    simp [mkRequest, requestInit, validateMethod, hbad]
  · intro hok
    simp [requestInit, hok, validateUrl]
  · intro hgood hbadurl
    have hvm : validateMethod method = .ok () := by
      simp [validateMethod, hgood]
    have hvu : validateUrl (.pystr url) = .error .valueError := by
      simp only [validateUrl]
      rw [if_neg]
      intro ⟨h1, h2⟩
      rcases hbadurl with h | h
      · exact h1 h
      · exact h2 h
    simp [mkRequest, requestInit, hvm, hvu]
  · intro hgood hsch hnet
    have hvm : validateMethod method = .ok () := by
      simp [validateMethod, hgood]
    have hvu : validateUrl (.pystr url) = .ok () := by
      simp [validateUrl, hsch, hnet]
    simp [mkRequest, requestInit, hvm, hvu]
  · simp [mkRequest, requestInit]
